import Mathlib

/-!
# FrameDX12: buffered resources, queue fences, render loop, mesh de-duplication

A shallow embedding of the parts of FrameDX12 that the specification talks
about, followed by the theorems that settle each statement of the
specification against that embedding.

* `Resources/BufferedResource.h` : `BufferedResource`, `kResourceBufferCount`,
  the process-wide `sCurrentResourceBufferIndex`.
* `Device/Device.cpp` : device creation with its feature-level fallback,
  `SignalQueueWork`, `WaitForQueue`, `WaitForWork`.
* `TestApp/main.cpp` : the render loop.
* `Resource/Mesh.cpp` : the vertex de-duplication loop of `Mesh::BuildFromOBJ`.
* The command graph (`AddNode`, `Build`) has no source file here; it is
  modelled from the specification.

Machine integers: `int` is an `Int` reduced into the signed 32-bit range after
every increment (`std::atomic<int>` arithmetic wraps), `uint32_t` values are
`Nat` reduced modulo `2^32` at the cast in the source.  The `uint64_t` fence
counters are plain `Nat`: they start at 0 and grow by one per call of
`SignalQueueWork` (`run_last_work_id_le` below), so they do not leave the
64-bit range in a program of fewer than `2^64` calls; a statement about a
single call on an arbitrary device assumes `last_work_id + 1 < 2^64`.
-/

namespace FrameDX12

/-! ## Resources/BufferedResource.h -/

/-- Number of copies kept by a buffered resource (`kResourceBufferCount`). -/
def kResourceBufferCount : Nat := 3

/-- Reduction of an integer into the range of a 32-bit two's-complement `int`. -/
def wrapInt32 (x : Int) : Int := (x + 2147483648) % 4294967296 - 2147483648

/-- The statement `sCurrentResourceBufferIndex++` on the `std::atomic<int>` counter. -/
def advance (counter : Int) : Int := wrapInt32 (counter + 1)

/-- The counter after `n` executions of `sCurrentResourceBufferIndex++`. -/
def advanceN : Nat → Int → Int
  | 0, counter => counter
  | n + 1, counter => advance (advanceN n counter)

/-- The expression `sCurrentResourceBufferIndex % kResourceBufferCount`: both
operands are promoted to `int`, and `%` on `int` truncates toward zero. -/
def slotIndex (counter : Int) : Int := Int.tmod counter (kResourceBufferCount : Int)

/-- The class template `BufferedResource<Type>`: the member array `mResource`. -/
structure BufferedResource (α : Type) where
  mResource : List α

/-- The defaulted constructor: `kResourceBufferCount` default-constructed slots. -/
def BufferedResource.default (α : Type) [Inhabited α] : BufferedResource α :=
  ⟨List.replicate kResourceBufferCount Inhabited.default⟩

/-- The method `Construct`: `for (uint8_t i = 0; i < kResourceBufferCount; i++)
mResource[i] = constructor(i);`. -/
def BufferedResource.Construct {α : Type} (r : BufferedResource α) (constructor : Nat → α) :
    BufferedResource α :=
  ⟨(List.range kResourceBufferCount).foldl (fun m i => m.set i (constructor i)) r.mResource⟩

/-- The constructor taking a factory: default-construct the slots, then `Construct`. -/
def BufferedResource.ofFactory {α : Type} [Inhabited α] (constructor : Nat → α) :
    BufferedResource α :=
  (BufferedResource.default α).Construct constructor

/-- Subscripting the member array with an `int`: `none` stands for an access
outside the array (undefined behaviour in the source). -/
def BufferedResource.slot {α : Type} (r : BufferedResource α) (i : Int) : Option α :=
  if 0 ≤ i then r.mResource[i.toNat]? else none

/-- The operator `operator*` (both overloads have the same body). -/
def BufferedResource.deref {α : Type} (r : BufferedResource α) (counter : Int) : Option α :=
  r.slot (slotIndex counter)

/-- The operator `operator->` (both overloads have the same body). -/
def BufferedResource.arrow {α : Type} (r : BufferedResource α) (counter : Int) : Option α :=
  r.slot (slotIndex counter)

/-! ## Device/Device.cpp : result codes -/

/-- Windows result code `HRESULT` (a signed 32-bit value; negative means failure). -/
abbrev HRESULT := Int

/-- The success code `S_OK`. -/
def S_OK : HRESULT := 0

/-- The generic failure code `E_FAIL` (`0x80004005` read as a signed value). -/
def E_FAIL : HRESULT := -2147467259

/-- The Windows test `FAILED(hr)`. -/
def FAILED (hr : HRESULT) : Prop := hr < 0

instance (hr : HRESULT) : Decidable (FAILED hr) := Int.decLt hr 0

/-- Modelled from the spec: `ThrowIfFailed` is declared in a header that is not
among the sources.  The specification has failures of the underlying GPU
operation propagated to the caller and never retried; the helper raises the
failed result code as an exception and lets every other code pass. -/
def ThrowIfFailed (hr : HRESULT) : Except HRESULT Unit :=
  if FAILED hr then Except.error hr else Except.ok ()

/-! ## Device/Device.cpp : creation of the device (lines 74 to 85) -/

/-- The two feature levels the constructor asks for. -/
inductive D3D_FEATURE_LEVEL where
  | D3D_FEATURE_LEVEL_12_0
  | D3D_FEATURE_LEVEL_12_1
  deriving DecidableEq, Repr

/-- What one call of `D3D12CreateDevice` gives back: the result code and the
out-pointer (`none` is the null pointer). -/
structure CreateDeviceResult where
  hr : HRESULT
  device : Option Nat
  deriving DecidableEq, Repr

/-- Observable outcome of the device-creation block of the constructor. -/
structure DeviceCreation where
  /-- the member `mD3DDevice` -/
  mD3DDevice : Option Nat
  /-- messages passed to `LogMsg`, oldest first -/
  log : List String
  /-- feature levels passed to `D3D12CreateDevice`, oldest first -/
  calls : List D3D_FEATURE_LEVEL
  /-- the exception leaving the constructor, if any -/
  thrown : Option HRESULT
  deriving DecidableEq, Repr

/-- The message logged on the fallback path. -/
def fallbackMessage : String :=
  "Failed to create device with feature level 12.1, trying with feature level 12.0"

/-- The device-creation block of `Device::Device`. -/
def Device.createD3DDevice (D3D12CreateDevice : D3D_FEATURE_LEVEL → CreateDeviceResult) :
    DeviceCreation :=
  let r1 := D3D12CreateDevice D3D_FEATURE_LEVEL.D3D_FEATURE_LEVEL_12_1
  match ThrowIfFailed r1.hr with
  | Except.error e => ⟨r1.device, [], [D3D_FEATURE_LEVEL.D3D_FEATURE_LEVEL_12_1], some e⟩
  | Except.ok _ =>
    if r1.device.isNone then
      let r2 := D3D12CreateDevice D3D_FEATURE_LEVEL.D3D_FEATURE_LEVEL_12_0
      match ThrowIfFailed r2.hr with
      | Except.error e =>
        ⟨r2.device, [fallbackMessage],
          [D3D_FEATURE_LEVEL.D3D_FEATURE_LEVEL_12_1, D3D_FEATURE_LEVEL.D3D_FEATURE_LEVEL_12_0],
          some e⟩
      | Except.ok _ =>
        ⟨r2.device, [fallbackMessage],
          [D3D_FEATURE_LEVEL.D3D_FEATURE_LEVEL_12_1, D3D_FEATURE_LEVEL.D3D_FEATURE_LEVEL_12_0],
          none⟩
    else
      ⟨r1.device, [], [D3D_FEATURE_LEVEL.D3D_FEATURE_LEVEL_12_1], none⟩

/-- An adapter on which creation at level 12.1 fails and creation at level 12.0
would succeed. -/
def adapterOnly120 : D3D_FEATURE_LEVEL → CreateDeviceResult
  | D3D_FEATURE_LEVEL.D3D_FEATURE_LEVEL_12_1 => ⟨E_FAIL, none⟩
  | D3D_FEATURE_LEVEL.D3D_FEATURE_LEVEL_12_0 => ⟨S_OK, some 1⟩

/-! ## Device/Device.cpp : queues and fences -/

/-- The queue kinds (`QueueType`). -/
inductive QueueType where
  | Graphics
  | Compute
  | Copy
  deriving DecidableEq, Repr

/-- Modelled from the spec: `QueueTypeToIndex` is declared in a header that is
not among the sources.  The specification keeps one fence and one counter per
queue type, so each queue type has a slot of its own in `mFences`. -/
def QueueTypeToIndex : QueueType → Nat
  | QueueType.Graphics => 0
  | QueueType.Compute => 1
  | QueueType.Copy => 2

/-- One element of `mFences` together with the part of its command queue that
the fence observes. -/
structure FenceSlot where
  /-- what `fence->GetCompletedValue()` returns -/
  completed : Nat
  /-- the member `last_work_id` -/
  last_work_id : Nat
  /-- values of the `Signal` commands enqueued on the queue and not yet executed
  by the GPU, oldest first -/
  signals : List Nat
  deriving DecidableEq, Repr

/-- The part of `Device` the fence functions read and write. -/
structure Device where
  mFences : Nat → FenceSlot

/-- Assignment through the reference `auto& fence = mFences[i]`. -/
def Device.setFence (d : Device) (i : Nat) (f : FenceSlot) : Device :=
  ⟨fun j => if j = i then f else d.mFences j⟩

/-- The fence loop of the constructor: `last_work_id = 0`, fence created with
initial value 0; the freshly created queues hold no command. -/
def Device.initial : Device := ⟨fun _ => ⟨0, 0, []⟩⟩

/-- Calls into Direct3D and Win32 made by the fence functions. -/
inductive ApiCall where
  | Signal (queue : QueueType) (value : Nat)
  | GetCompletedValue (queue : QueueType)
  | SetEventOnCompletion (queue : QueueType) (value : Nat)
  | WaitForSingleObject (queue : QueueType)
  deriving DecidableEq, Repr

/-- How a call ended. -/
inductive Completion (α : Type) where
  | returned (a : α)
  | threw (hr : HRESULT)
  | hangs
  deriving DecidableEq, Repr

/-- A finished (or forever blocked) call: the device afterwards, the API calls
made in order, and how it ended. -/
structure Run (α : Type) where
  device : Device
  calls : List ApiCall
  completion : Completion α

/-- The GPU executes the oldest enqueued `Signal` command of a queue: the fence
takes the signalled value. -/
def FenceSlot.gpuStep (f : FenceSlot) : FenceSlot :=
  match f.signals with
  | [] => f
  | v :: rest => { f with completed := v, signals := rest }

/-- The GPU executes `k` enqueued `Signal` commands (fewer if fewer are enqueued). -/
def FenceSlot.gpuRetire : Nat → FenceSlot → FenceSlot
  | 0, f => f
  | k + 1, f => FenceSlot.gpuRetire k f.gpuStep

/-- The event registered by `SetEventOnCompletion(value, sync_event)` followed by
`WaitForSingleObject(sync_event, INFINITE)`: the thread sleeps while the GPU
executes enqueued signals, and wakes as soon as the fence has reached `value`.
The result is the fence value and the commands left at that moment, or `none`
when the queue runs dry first (the wait never ends). -/
def waitUntil (value : Nat) : Nat → List Nat → Option (Nat × List Nat)
  | completed, [] => if value ≤ completed then some (completed, []) else none
  | completed, v :: rest =>
    if value ≤ completed then some (completed, v :: rest) else waitUntil value v rest

/-- The function `Device::SignalQueueWork`; `hr` is what `Signal` returns.  The
counter is incremented before the result of `Signal` is looked at.  It is a
`uint64_t`; the increment is written without the wrap at `2^64 - 1`, so the
function is that of the source on every device with `last_work_id + 1 < 2^64`,
and statements about one call carry that bound. -/
def Device.SignalQueueWork (d : Device) (queue : QueueType) (hr : HRESULT) : Run Nat :=
  let i := QueueTypeToIndex queue
  let fence := d.mFences i
  let fence1 : FenceSlot := { fence with last_work_id := fence.last_work_id + 1 }
  match ThrowIfFailed hr with
  | Except.error e =>
    ⟨d.setFence i fence1, [ApiCall.Signal queue fence1.last_work_id], Completion.threw e⟩
  | Except.ok _ =>
    ⟨d.setFence i { fence1 with signals := fence1.signals ++ [fence1.last_work_id] },
      [ApiCall.Signal queue fence1.last_work_id], Completion.returned fence1.last_work_id⟩

/-- The function `Device::WaitForQueue`; `hr` is what `SetEventOnCompletion`
returns. -/
def Device.WaitForQueue (d : Device) (queue : QueueType) (hr : HRESULT) : Run Unit :=
  let i := QueueTypeToIndex queue
  let fence := d.mFences i
  if fence.completed < fence.last_work_id then
    match ThrowIfFailed hr with
    | Except.error e =>
      ⟨d, [ApiCall.GetCompletedValue queue,
        ApiCall.SetEventOnCompletion queue fence.last_work_id], Completion.threw e⟩
    | Except.ok _ =>
      match waitUntil fence.last_work_id fence.completed fence.signals with
      | none =>
        ⟨d, [ApiCall.GetCompletedValue queue,
          ApiCall.SetEventOnCompletion queue fence.last_work_id,
          ApiCall.WaitForSingleObject queue], Completion.hangs⟩
      | some (c, rest) =>
        ⟨d.setFence i { fence with completed := c, signals := rest },
          [ApiCall.GetCompletedValue queue,
          ApiCall.SetEventOnCompletion queue fence.last_work_id,
          ApiCall.WaitForSingleObject queue], Completion.returned ()⟩
  else
    ⟨d, [ApiCall.GetCompletedValue queue], Completion.returned ()⟩

/-- The function `Device::WaitForWork`; `hr` is what `SetEventOnCompletion`
returns. -/
def Device.WaitForWork (d : Device) (queue : QueueType) (id : Nat) (hr : HRESULT) : Run Unit :=
  let i := QueueTypeToIndex queue
  let fence := d.mFences i
  if fence.completed < id then
    match ThrowIfFailed hr with
    | Except.error e =>
      ⟨d, [ApiCall.GetCompletedValue queue, ApiCall.SetEventOnCompletion queue id],
        Completion.threw e⟩
    | Except.ok _ =>
      match waitUntil id fence.completed fence.signals with
      | none =>
        ⟨d, [ApiCall.GetCompletedValue queue, ApiCall.SetEventOnCompletion queue id,
          ApiCall.WaitForSingleObject queue], Completion.hangs⟩
      | some (c, rest) =>
        ⟨d.setFence i { fence with completed := c, signals := rest },
          [ApiCall.GetCompletedValue queue, ApiCall.SetEventOnCompletion queue id,
          ApiCall.WaitForSingleObject queue], Completion.returned ()⟩
  else
    ⟨d, [ApiCall.GetCompletedValue queue], Completion.returned ()⟩

/-- A call blocks when it reaches `WaitForSingleObject`. -/
def Run.blocks {α : Type} (r : Run α) (queue : QueueType) : Prop :=
  ApiCall.WaitForSingleObject queue ∈ r.calls

instance {α : Type} (r : Run α) (queue : QueueType) : Decidable (r.blocks queue) :=
  inferInstanceAs (Decidable (ApiCall.WaitForSingleObject queue ∈ r.calls))

/-- A call waits on fence value `v` when it registers the event for `v`. -/
def Run.waitsOn {α : Type} (r : Run α) (queue : QueueType) (v : Nat) : Prop :=
  ApiCall.SetEventOnCompletion queue v ∈ r.calls

instance {α : Type} (r : Run α) (queue : QueueType) (v : Nat) : Decidable (r.waitsOn queue v) :=
  inferInstanceAs (Decidable (ApiCall.SetEventOnCompletion queue v ∈ r.calls))

/-- Shorthand: the fence slot of a queue. -/
def Device.fenceOf (d : Device) (queue : QueueType) : FenceSlot :=
  d.mFences (QueueTypeToIndex queue)

/-! ## Programs over the fence functions -/

/-- One step of a program that uses the fence functions, or of the GPU. -/
inductive Op where
  | SignalQueueWork (queue : QueueType) (hr : HRESULT)
  | WaitForQueue (queue : QueueType) (hr : HRESULT)
  | WaitForWork (queue : QueueType) (id : Nat) (hr : HRESULT)
  /-- the GPU executes `k` enqueued signals of `queue` while the CPU does something else -/
  | gpu (queue : QueueType) (k : Nat)
  deriving DecidableEq, Repr

/-- What a program has done so far: the device, every `SignalQueueWork` call
it made (oldest first: the queue and the ticket returned, `none` when the call
threw), and whether it is still running.  A caller may catch the exception of
a failed call and go on (the specification has the frame abandoned, nothing
rolled back); a wait that hangs never returns, and ends the program. -/
structure History where
  device : Device
  signalled : List (QueueType × Option Nat)
  alive : Bool

/-- Start of every program: the device as its constructor leaves it. -/
def History.start : History := ⟨Device.initial, [], true⟩

/-- Execution of one step. -/
def History.step (h : History) (op : Op) : History :=
  if h.alive then
    match op with
    | Op.SignalQueueWork queue hr =>
      let r := h.device.SignalQueueWork queue hr
      match r.completion with
      | Completion.returned t => ⟨r.device, h.signalled ++ [(queue, some t)], true⟩
      | Completion.threw _ => ⟨r.device, h.signalled ++ [(queue, none)], true⟩
      | Completion.hangs => ⟨r.device, h.signalled, false⟩
    | Op.WaitForQueue queue hr =>
      let r := h.device.WaitForQueue queue hr
      match r.completion with
      | Completion.hangs => ⟨r.device, h.signalled, false⟩
      | _ => ⟨r.device, h.signalled, true⟩
    | Op.WaitForWork queue id hr =>
      let r := h.device.WaitForWork queue id hr
      match r.completion with
      | Completion.hangs => ⟨r.device, h.signalled, false⟩
      | _ => ⟨r.device, h.signalled, true⟩
    | Op.gpu queue k =>
      ⟨h.device.setFence (QueueTypeToIndex queue) ((h.device.fenceOf queue).gpuRetire k),
        h.signalled, true⟩
  else h

/-- Execution of a program from the freshly constructed device. -/
def History.run (ops : List Op) : History := ops.foldl History.step History.start

/-- The outcomes of the `SignalQueueWork` calls made on one queue, oldest
first: the ticket returned, or `none` for a call that threw. -/
def History.outcomesOf (h : History) (queue : QueueType) : List (Option Nat) :=
  (h.signalled.filter (fun p => decide (p.1 = queue))).map Prod.snd

/-- The tickets one queue handed out, oldest first: the `k`-th element is what
the `k`-th successful call returned. -/
def History.ticketsOf (h : History) (queue : QueueType) : List Nat :=
  (h.outcomesOf queue).filterMap id

/-! ## TestApp/main.cpp : the render loop -/

/-- Modelled from the spec: `CommandGraph::Execute` has no source file here.
The specification has it record the nodes, submit the recorded buffers to the
queue bound to the graph and return a fence ticket: one `SignalQueueWork` on
that queue after the submission. -/
def CommandGraph.Execute (d : Device) (queue : QueueType) (hr : HRESULT) : Run Nat :=
  d.SignalQueueWork queue hr

/-- What the environment does during one iteration of the render loop. -/
structure FrameEnv where
  /-- graphics signals the GPU executes before the iteration starts -/
  gpuBefore : Nat
  /-- result code of the `Signal` issued by `Execute` -/
  hrSignal : HRESULT
  /-- graphics signals the GPU executes between `Execute` and the wait test -/
  gpuAfter : Nat
  /-- result code of `SetEventOnCompletion`, should `WaitForQueue` call it -/
  hrSetEvent : HRESULT
  deriving DecidableEq, Repr

/-- The moment a frame starts recording: the counter that selects its slot and
the graphics fence value then. -/
structure FrameBegin where
  counter : Int
  completed : Nat
  deriving DecidableEq, Repr

/-- The render loop so far. -/
structure LoopTrace where
  dev : Device
  sCurrentResourceBufferIndex : Int
  /-- one entry per frame that started recording, oldest first -/
  begins : List FrameBegin
  /-- the ticket of every frame whose `Execute` returned, oldest first -/
  tickets : List Nat
  /-- false once an exception left the callback or a wait hung -/
  running : Bool

/-- The state in which the loop is entered: nothing recorded, and the counter
at 0 (its definition is outside the sources; an atomic at namespace scope is
zero-initialised, and the specification counts the advances from 0). -/
def LoopTrace.start (d : Device) : LoopTrace := ⟨d, 0, [], [], true⟩

/-- One call of the idle callback: `Execute`, `Present`, advance the counter,
and `WaitForQueue(Graphics)` when the new counter is a multiple of
`kResourceBufferCount`. -/
def renderFrame (t : LoopTrace) (env : FrameEnv) : LoopTrace :=
  if t.running then
    let gi := QueueTypeToIndex QueueType.Graphics
    let d1 := t.dev.setFence gi ((t.dev.fenceOf QueueType.Graphics).gpuRetire env.gpuBefore)
    let b : FrameBegin := ⟨t.sCurrentResourceBufferIndex, (d1.fenceOf QueueType.Graphics).completed⟩
    let r := CommandGraph.Execute d1 QueueType.Graphics env.hrSignal
    match r.completion with
    | Completion.returned ticket =>
      let counter := advance t.sCurrentResourceBufferIndex
      let d2 := r.device.setFence gi
        ((r.device.fenceOf QueueType.Graphics).gpuRetire env.gpuAfter)
      if slotIndex counter = 0 then
        let w := d2.WaitForQueue QueueType.Graphics env.hrSetEvent
        match w.completion with
        | Completion.returned _ =>
          ⟨w.device, counter, t.begins ++ [b], t.tickets ++ [ticket], true⟩
        | _ => ⟨w.device, counter, t.begins ++ [b], t.tickets ++ [ticket], false⟩
      else
        ⟨d2, counter, t.begins ++ [b], t.tickets ++ [ticket], true⟩
    | _ => ⟨r.device, t.sCurrentResourceBufferIndex, t.begins ++ [b], t.tickets, false⟩
  else t

/-- The render loop run for one iteration per element of `envs`. -/
def renderLoop (d : Device) (envs : List FrameEnv) : LoopTrace :=
  envs.foldl renderFrame (LoopTrace.start d)

/-- A fence slot in every program: the fence is not ahead of the last requested
value, and the signals still enqueued are strictly increasing values above the
fence and up to the last requested value. -/
def FenceSlot.Sound (f : FenceSlot) : Prop :=
  f.completed ≤ f.last_work_id ∧
    List.Pairwise (fun a b => a < b) f.signals ∧
    ∀ s ∈ f.signals, f.completed < s ∧ s ≤ f.last_work_id

/-- The last requested value has been signalled: the fence has reached it, or
its signal is the newest one enqueued.  (It fails after a `SignalQueueWork`
whose `Signal` failed, until the next successful one.) -/
def FenceSlot.Pending (f : FenceSlot) : Prop :=
  f.completed = f.last_work_id ∨ f.signals.getLast? = some f.last_work_id

/-- A fence slot while no `Signal` has failed: the fence is not ahead of the
last requested value, and the signals still enqueued are the values between
the two, in order. -/
def FenceSlot.WellFormed (f : FenceSlot) : Prop :=
  f.completed ≤ f.last_work_id ∧
    f.signals = List.range' (f.completed + 1) (f.last_work_id - f.completed)

instance (f : FenceSlot) : Decidable f.WellFormed :=
  inferInstanceAs (Decidable (_ ∧ _))

/-- An environment in which every API call succeeds and the GPU only works
while the CPU waits for it. -/
def FrameEnv.lazy : FrameEnv := ⟨0, S_OK, 0, S_OK⟩

/-! ## Resource/Mesh.cpp : the vertex de-duplication of `Mesh::BuildFromOBJ`

The vertex type `StandardVertex`, its equality and its hash are declared in a
header that is not among the sources: the vertex type is a parameter `V` with
decidable equality, and `std::unordered_map<StandardVertex, uint32_t>` (whose
hash agrees with that equality) is a list of key/value pairs searched by key. -/

/-- The lookup behind `count` and `operator[]`: the value stored under a key. -/
def mapFind {V : Type} [DecidableEq V] : List (V × Nat) → V → Option Nat
  | [], _ => none
  | (k, x) :: rest, v => if k = v then some x else mapFind rest v

/-- The member `unordered_map::count`. -/
def mapCount {V : Type} [DecidableEq V] (m : List (V × Nat)) (v : V) : Nat :=
  if (mapFind m v).isSome then 1 else 0

/-- The assignment `m[v] = x`: overwrite the entry of `v`, or add one. -/
def mapAssign {V : Type} [DecidableEq V] : List (V × Nat) → V → Nat → List (V × Nat)
  | [], v, x => [(v, x)]
  | (k, y) :: rest, v, x => if k = v then (k, x) :: rest else (k, y) :: mapAssign rest v x

/-- The read `m[v]`: the stored value; an absent key is first added with value 0. -/
def mapSubscript {V : Type} [DecidableEq V] (m : List (V × Nat)) (v : V) :
    Nat × List (V × Nat) :=
  match mapFind m v with
  | some x => (x, m)
  | none => (0, mapAssign m v 0)

/-- The members of `Mesh` the loop writes. -/
structure Mesh (V : Type) where
  mVertices : List V
  mIndices : List Nat

/-- The local `unique_vertices` and the two member vectors during the loop. -/
structure BuildState (V : Type) where
  unique_vertices : List (V × Nat)
  mVertices : List V
  mIndices : List Nat

/-- The cast `static_cast<uint32_t>(n)` of a `size_t`. -/
def castUInt32 (n : Nat) : Nat := n % 4294967296

/-- The body of the inner loop of `BuildFromOBJ` for one expanded face corner. -/
def Mesh.addCorner {V : Type} [DecidableEq V] (st : BuildState V) (vertex : V) : BuildState V :=
  let st1 : BuildState V :=
    if mapCount st.unique_vertices vertex = 0 then
      { unique_vertices := mapAssign st.unique_vertices vertex (castUInt32 st.mVertices.length),
        mVertices := st.mVertices ++ [vertex],
        mIndices := st.mIndices }
    else st
  let r := mapSubscript st1.unique_vertices vertex
  { unique_vertices := r.2, mVertices := st1.mVertices, mIndices := st1.mIndices ++ [r.1] }

/-- The two nested loops of `BuildFromOBJ`: every index of every shape, in
order; `expand` builds the vertex of a face corner from the attribute arrays. -/
def Mesh.buildLoop {V I : Type} [DecidableEq V] (expand : I → V) (shapes : List (List I))
    (st : BuildState V) : BuildState V :=
  shapes.foldl (fun s shape => shape.foldl (fun s' index => Mesh.addCorner s' (expand index)) s) st

/-- The CPU side of `Mesh::BuildFromOBJ`: nothing happens when loading failed;
otherwise the loops run on an empty `unique_vertices` and the mesh's vectors. -/
def Mesh.BuildFromOBJ {V I : Type} [DecidableEq V] (mesh : Mesh V) (succeeded : Bool)
    (expand : I → V) (shapes : List (List I)) : Mesh V :=
  if succeeded then
    let st := Mesh.buildLoop expand shapes ⟨[], mesh.mVertices, mesh.mIndices⟩
    ⟨st.mVertices, st.mIndices⟩
  else mesh

/-- The vertex sequence of a loaded file: the face corners of all shapes in
order, expanded. -/
def cornerVertices {V I : Type} (expand : I → V) (shapes : List (List I)) : List V :=
  shapes.flatten.map expand

/-- A mesh with no vertex and no index. -/
def Mesh.empty (V : Type) : Mesh V := ⟨[], []⟩

/-! ## The command graph

`Device/CommandGraph.h` and its implementation are not among the sources; the
graph is modelled from sections 3 and 4.1 of the specification.  Callbacks
play no part in the ordering and are left out. -/

/-- Modelled from the spec: a node of the command graph (name, predecessor
names, instance count); the callbacks are absent from this model. -/
structure Node where
  name : String
  depends_on : List String
  instance_count : Nat
  deriving DecidableEq, Repr

/-- Modelled from the spec: the error taxonomy of the graph. -/
inductive GraphError where
  | ConfigurationError
  | CycleError
  | UnknownDependencyError
  deriving DecidableEq, Repr

/-- Modelled from the spec: the graph owns its node set (in registration
order) and, once finalized, its execution order. -/
structure CommandGraph where
  nodes : List Node
  finalized : Bool
  order : List Node
  deriving DecidableEq, Repr

/-- Modelled from the spec: a graph with no node, not finalized. -/
def CommandGraph.empty : CommandGraph := ⟨[], false, []⟩

/-- Modelled from the spec: `AddNode` registers a node; it fails with
ConfigurationError after finalize, or when the name is a non-empty duplicate. -/
def CommandGraph.AddNode (g : CommandGraph) (n : Node) : Except GraphError CommandGraph :=
  if g.finalized then Except.error GraphError.ConfigurationError
  else if n.name ≠ "" ∧ n.name ∈ g.nodes.map Node.name then
    Except.error GraphError.ConfigurationError
  else Except.ok { g with nodes := g.nodes ++ [n] }

/-- Modelled from the spec: registration of a list of nodes, one `AddNode`
each, stopping at the first failure. -/
def CommandGraph.addAll : CommandGraph → List Node → Except GraphError CommandGraph
  | g, [] => Except.ok g
  | g, n :: rest =>
    match g.AddNode n with
    | Except.error e => Except.error e
    | Except.ok g' => CommandGraph.addAll g' rest

/-- Modelled from the spec: a predecessor name is resolved when it is the
non-empty name of a registered node (anonymous nodes cannot be depended upon). -/
def resolved (nodes : List Node) (d : String) : Bool :=
  decide (d ≠ "") && nodes.any (fun p => decide (p.name = d))

/-- Modelled from the spec: a node may be placed once all its predecessors are. -/
def ready (placed : List Node) (n : Node) : Bool :=
  n.depends_on.all (fun d => placed.any (fun p => decide (p.name = d)))

/-- Modelled from the spec: ties are broken by registration order, so the next
node is the earliest registered one that is ready; it is taken out of the
pending list. -/
def pickReady (placed : List Node) : List Node → Option (Node × List Node)
  | [] => none
  | n :: rest =>
    if ready placed n then some (n, rest)
    else
      match pickReady placed rest with
      | none => none
      | some (m, rest') => some (m, n :: rest')

/-- Modelled from the spec: the topological ordering; `none` when some pending
node can never be placed (a cycle). -/
def topoSort : Nat → List Node → List Node → Option (List Node)
  | _, [], placed => some placed
  | 0, _ :: _, _ => none
  | fuel + 1, n :: rest, placed =>
    match pickReady placed (n :: rest) with
    | none => none
    | some (m, rest') => topoSort fuel rest' (placed ++ [m])

/-- Modelled from the spec: `Build` validates the graph (UnknownDependencyError
on an unresolved predecessor name, CycleError on a cycle) and computes the
execution order. -/
def CommandGraph.Build (g : CommandGraph) : Except GraphError CommandGraph :=
  if g.nodes.all (fun n => n.depends_on.all (fun d => resolved g.nodes d)) then
    match topoSort g.nodes.length g.nodes [] with
    | none => Except.error GraphError.CycleError
    | some order => Except.ok { g with finalized := true, order := order }
  else Except.error GraphError.UnknownDependencyError

/-- The three nodes the test application registers (`main.cpp`, lines 149 to
184); the draw node has one instance per mesh. -/
def testAppNodes (meshes : Nat) : List Node :=
  [⟨"Clear", [], 1⟩, ⟨"Draw", ["Clear"], meshes⟩, ⟨"Present", ["Draw"], 1⟩]

/-- Every node names only previously registered predecessors: each predecessor
name is non-empty and is the name of a node earlier in the list. -/
def NamesEarlier : List Node → List Node → Prop
  | _, [] => True
  | earlier, n :: rest =>
    (∀ d ∈ n.depends_on, d ≠ "" ∧ ∃ p ∈ earlier, p.name = d) ∧ NamesEarlier (earlier ++ [n]) rest

/-! ## Concrete states and invariants used in the proofs -/

/-- A device on whose queues tickets 3, 4 and 5 are in flight: the fences
stand at 2, the last requested value is 5. -/
def busyDevice : Device := ⟨fun _ => ⟨2, 5, [3, 4, 5]⟩⟩

/-- Counting invariant of one queue, on the outcomes `outs` of the
`SignalQueueWork` calls made on it and its last requested value `last`: `last`
is the number of calls, failed ones included; a successful call returned the
number of calls made up to and including it; the tickets are strictly
increasing, each at least its rank and at most `last`; they are 1, 2, 3, ...
when no call failed; and `last` is the latest ticket (0 when there is none)
unless the most recent call failed. -/
def CountedAt (outs : List (Option Nat)) (last : Nat) : Prop :=
  last = outs.length ∧
  (∀ (i t : Nat), outs[i]? = some (some t) → t = i + 1) ∧
  List.Pairwise (fun a b => a < b) (outs.filterMap id) ∧
  (∀ t ∈ outs.filterMap id, t ≤ last) ∧
  (outs.filterMap id).length ≤ last ∧
  (∀ (k t : Nat), (outs.filterMap id)[k]? = some t → k + 1 ≤ t) ∧
  ((∀ o ∈ outs, o ≠ none) → outs.filterMap id = List.range' 1 outs.length) ∧
  (outs.getLast? ≠ some none → last = (outs.filterMap id).getLastD 0) ∧
  (outs.getLast? = some none → (outs.filterMap id).getLastD 0 < last)

/-- Counting invariant of a program: `CountedAt` for every queue. -/
def History.Counted (h : History) : Prop :=
  ∀ q : QueueType, CountedAt (h.outcomesOf q) (h.device.fenceOf q).last_work_id

/-- Invariant of the render loop entered with last requested graphics value
`r0`: frame `k` (before the counter wraps) starts with counter `k` and, from
the fourth frame on, with the fence at `r0 + 3 * (k / 3)` or beyond; the ticket
of frame `k` is `r0 + k + 1`; and while the loop runs the graphics slot is
sound and the counter is the number of frames done. -/
def LoopTrace.Inv (r0 : Nat) (t : LoopTrace) : Prop :=
  (∀ (k : Nat) (b : FrameBegin), t.begins[k]? = some b → k < 2147483648 →
      b.counter = (k : Int) ∧ (3 ≤ k → r0 + 3 * (k / 3) ≤ b.completed)) ∧
  (∀ (k v : Nat), t.tickets[k]? = some v → v = r0 + k + 1) ∧
  (t.tickets.length ≤ t.begins.length ∧ t.begins.length ≤ t.tickets.length + 1) ∧
  (t.running = true →
      t.begins.length = t.tickets.length ∧
      (t.dev.fenceOf QueueType.Graphics).Sound ∧
      (t.dev.fenceOf QueueType.Graphics).last_work_id = r0 + t.tickets.length ∧
      (t.tickets.length < 2147483648 →
        t.sCurrentResourceBufferIndex = (t.tickets.length : Int) ∧
        (3 ≤ t.tickets.length →
          r0 + 3 * (t.tickets.length / 3) ≤ (t.dev.fenceOf QueueType.Graphics).completed)))

/-- Invariant of the de-duplication loop after the face corners `vs`: the
vertex vector has no repetition and only vertices of `vs`, the map sends
exactly the stored vertices to their positions, and index `k` points at the
`k`-th face corner. -/
def BuildState.Inv {V : Type} [DecidableEq V] (st : BuildState V) (vs : List V) : Prop :=
  st.mVertices.Nodup ∧
  (∀ (v : V) (i : Nat), mapFind st.unique_vertices v = some i → st.mVertices[i]? = some v) ∧
  (∀ v ∈ st.mVertices, (mapFind st.unique_vertices v).isSome = true) ∧
  (∀ v ∈ st.mVertices, v ∈ vs) ∧
  st.mIndices.length = vs.length ∧
  (∀ (k : Nat) (v : V), vs[k]? = some v →
    ∃ i, st.mIndices[k]? = some i ∧ st.mVertices[i]? = some v)

/-- Names are unique among named nodes: of two registered nodes the later one
is anonymous or has another name than the earlier one. -/
def UniqueNames (nodes : List Node) : Prop :=
  List.Pairwise (fun a b : Node => b.name = "" ∨ a.name ≠ b.name) nodes

/-- The setup `main.cpp` runs on the fences before the render loop: the copy
graph is executed (one ticket on the copy queue), then the copy queue is
waited for. -/
def mainSetup : List Op :=
  [Op.SignalQueueWork QueueType.Copy S_OK, Op.WaitForQueue QueueType.Copy S_OK]

/-! ## Lemmas on the frame counter -/

theorem wrapInt32_of_range {x : Int} (h0 : -2147483648 ≤ x) (h1 : x < 2147483648) :
    wrapInt32 x = x := by
  unfold wrapInt32
  omega

theorem wrapInt32_succ (x : Int) : wrapInt32 (wrapInt32 x + 1) = wrapInt32 (x + 1) := by
  unfold wrapInt32
  omega

theorem advanceN_zero_eq (n : Nat) : advanceN n 0 = wrapInt32 n := by
  induction n with
  | zero => simp [advanceN, wrapInt32]
  | succ k ih =>
    simp only [advanceN, advance, ih]
    rw [wrapInt32_succ]
    push_cast
    rfl

theorem advanceN_zero_small {n : Nat} (h : n < 2147483648) : advanceN n 0 = (n : Int) := by
  rw [advanceN_zero_eq]
  exact wrapInt32_of_range (by omega) (by omega)

theorem slotIndex_nonneg {c : Int} (h : 0 ≤ c) : slotIndex c = c % 3 := by
  unfold slotIndex kResourceBufferCount
  exact Int.tmod_eq_emod h (by norm_num)

theorem ofFactory_mResource {α : Type} [Inhabited α] (f : Nat → α) :
    (BufferedResource.ofFactory f).mResource = [f 0, f 1, f 2] := by
  simp [BufferedResource.ofFactory, BufferedResource.Construct, BufferedResource.default,
    kResourceBufferCount, List.range_succ, List.replicate]

theorem slot_ofFactory {α : Type} [Inhabited α] (f : Nat → α) (i : Nat) (h : i < 3) :
    (BufferedResource.ofFactory f).slot (i : Int) = some (f i) := by
  unfold BufferedResource.slot
  rw [ofFactory_mResource]
  interval_cases i <;> simp



/-! ## Device creation -/

theorem ThrowIfFailed_of_failed {hr : HRESULT} (h : FAILED hr) :
    ThrowIfFailed hr = Except.error hr := by
  simp [ThrowIfFailed, h]

theorem ThrowIfFailed_of_ok {hr : HRESULT} (h : ¬ FAILED hr) :
    ThrowIfFailed hr = Except.ok () := by
  simp [ThrowIfFailed, h]

/-! ## Fence slots -/

theorem QueueTypeToIndex_injective {a b : QueueType}
    (h : QueueTypeToIndex a = QueueTypeToIndex b) : a = b := by
  cases a <;> cases b <;> simp [QueueTypeToIndex] at h <;> rfl

theorem fenceOf_setFence_same (d : Device) (q : QueueType) (f : FenceSlot) :
    (d.setFence (QueueTypeToIndex q) f).fenceOf q = f := by
  simp [Device.fenceOf, Device.setFence]

theorem fenceOf_setFence_other (d : Device) {q q' : QueueType} (f : FenceSlot) (h : q ≠ q') :
    (d.setFence (QueueTypeToIndex q') f).fenceOf q = d.fenceOf q := by
  have : QueueTypeToIndex q ≠ QueueTypeToIndex q' := fun e => h (QueueTypeToIndex_injective e)
  simp [Device.fenceOf, Device.setFence, this]

theorem waitUntil_reaches (value : Nat) :
    ∀ (sigs : List Nat) (c c' : Nat) (rest : List Nat),
      waitUntil value c sigs = some (c', rest) → value ≤ c' := by
  intro sigs
  induction sigs with
  | nil =>
    intro c c' rest h
    simp only [waitUntil] at h
    split at h
    · cases h; assumption
    · cases h
  | cons v tl ih =>
    intro c c' rest h
    simp only [waitUntil] at h
    split at h
    · cases h; assumption
    · exact ih v c' rest h

theorem gpuStep_last_work_id (f : FenceSlot) : f.gpuStep.last_work_id = f.last_work_id := by
  unfold FenceSlot.gpuStep
  split <;> rfl

theorem gpuRetire_last_work_id (k : Nat) :
    ∀ f : FenceSlot, (f.gpuRetire k).last_work_id = f.last_work_id := by
  induction k with
  | zero => intro f; rfl
  | succ n ih => intro f; simp [FenceSlot.gpuRetire, ih, gpuStep_last_work_id]

/-! ## The wait functions -/

theorem WaitForQueue_not_behind (d : Device) (queue : QueueType) (hr : HRESULT)
    (h : ¬ (d.fenceOf queue).completed < (d.fenceOf queue).last_work_id) :
    d.WaitForQueue queue hr = ⟨d, [ApiCall.GetCompletedValue queue], Completion.returned ()⟩ := by
  unfold Device.fenceOf at h
  simp [Device.WaitForQueue, h]

theorem WaitForWork_not_behind (d : Device) (queue : QueueType) (id : Nat) (hr : HRESULT)
    (h : ¬ (d.fenceOf queue).completed < id) :
    d.WaitForWork queue id hr = ⟨d, [ApiCall.GetCompletedValue queue], Completion.returned ()⟩ := by
  unfold Device.fenceOf at h
  simp [Device.WaitForWork, h]

/-- The three ways a wait that finds the fence behind can end once the event
is registered: the calls are the same in all of them. -/
theorem WaitForWork_behind_calls (d : Device) (queue : QueueType) (id : Nat) (hr : HRESULT)
    (h : (d.fenceOf queue).completed < id) (hok : ¬ FAILED hr) :
    (d.WaitForWork queue id hr).calls =
      [ApiCall.GetCompletedValue queue, ApiCall.SetEventOnCompletion queue id,
        ApiCall.WaitForSingleObject queue] := by
  unfold Device.fenceOf at h
  simp only [Device.WaitForWork, h, if_true, ThrowIfFailed_of_ok hok]
  split <;> rfl

theorem WaitForWork_behind_failed (d : Device) (queue : QueueType) (id : Nat) (hr : HRESULT)
    (h : (d.fenceOf queue).completed < id) (hf : FAILED hr) :
    d.WaitForWork queue id hr =
      ⟨d, [ApiCall.GetCompletedValue queue, ApiCall.SetEventOnCompletion queue id],
        Completion.threw hr⟩ := by
  unfold Device.fenceOf at h
  simp [Device.WaitForWork, h, ThrowIfFailed_of_failed hf]

theorem WaitForWork_last_work_id (d : Device) (queue : QueueType) (id : Nat) (hr : HRESULT)
    (q : QueueType) :
    ((d.WaitForWork queue id hr).device.fenceOf q).last_work_id = (d.fenceOf q).last_work_id := by
  unfold Device.WaitForWork
  simp only
  split
  · split
    · rfl
    · split
      · rfl
      · by_cases hq : q = queue
        · subst hq
          rw [fenceOf_setFence_same]
          rfl
        · rw [fenceOf_setFence_other _ _ hq]
  · rfl

theorem WaitForWork_returned_reaches (d : Device) (queue : QueueType) (id : Nat) (hr : HRESULT)
    (h : (d.WaitForWork queue id hr).completion = Completion.returned ()) :
    id ≤ ((d.WaitForWork queue id hr).device.fenceOf queue).completed := by
  unfold Device.WaitForWork at h ⊢
  simp only at h ⊢
  split
  · rename_i hlt
    simp only [hlt, if_true] at h
    split
    · rename_i e he
      simp [he] at h
    · rename_i u hu
      simp only [hu] at h
      split
      · rename_i hw
        simp [hw] at h
      · rename_i c rest hw
        rw [fenceOf_setFence_same]
        exact waitUntil_reaches _ _ _ _ _ hw
  · rename_i hge
    show id ≤ (d.mFences (QueueTypeToIndex queue)).completed
    omega

/-- The two wait functions coincide when the identifier is the last requested value. -/
theorem WaitForQueue_eq_WaitForWork (d : Device) (queue : QueueType) (hr : HRESULT) :
    d.WaitForQueue queue hr = d.WaitForWork queue (d.fenceOf queue).last_work_id hr := rfl

/-! ## Signalling -/

theorem SignalQueueWork_ok (d : Device) (queue : QueueType) {hr : HRESULT} (hok : ¬ FAILED hr) :
    d.SignalQueueWork queue hr =
      ⟨d.setFence (QueueTypeToIndex queue)
          { completed := (d.fenceOf queue).completed,
            last_work_id := (d.fenceOf queue).last_work_id + 1,
            signals := (d.fenceOf queue).signals ++ [(d.fenceOf queue).last_work_id + 1] },
        [ApiCall.Signal queue ((d.fenceOf queue).last_work_id + 1)],
        Completion.returned ((d.fenceOf queue).last_work_id + 1)⟩ := by
  simp [Device.SignalQueueWork, ThrowIfFailed_of_ok hok, Device.fenceOf]

theorem SignalQueueWork_failed (d : Device) (queue : QueueType) {hr : HRESULT} (h : FAILED hr) :
    d.SignalQueueWork queue hr =
      ⟨d.setFence (QueueTypeToIndex queue)
          { completed := (d.fenceOf queue).completed,
            last_work_id := (d.fenceOf queue).last_work_id + 1,
            signals := (d.fenceOf queue).signals },
        [ApiCall.Signal queue ((d.fenceOf queue).last_work_id + 1)],
        Completion.threw hr⟩ := by
  simp [Device.SignalQueueWork, ThrowIfFailed_of_failed h, Device.fenceOf]

/-! ## Counting the calls of a program -/

theorem getElem?_concat_some {α : Type} {l : List α} {a b : α} {k : Nat}
    (h : (l ++ [a])[k]? = some b) : l[k]? = some b ∨ (k = l.length ∧ b = a) := by
  rw [List.getElem?_append] at h
  split at h
  · exact Or.inl h
  · rename_i hlt
    right
    have hk : k - l.length = 0 := by
      by_contra hne
      obtain ⟨m, hm⟩ : ∃ m, k - l.length = m + 1 := ⟨k - l.length - 1, by omega⟩
      rw [hm] at h
      simp at h
    rw [hk] at h
    simp at h
    exact ⟨by omega, h.symm⟩

theorem outcomesOf_append_same (h : History) (q : QueueType) (o : Option Nat) (dev : Device)
    (a : Bool) :
    History.outcomesOf ⟨dev, h.signalled ++ [(q, o)], a⟩ q = h.outcomesOf q ++ [o] := by
  simp [History.outcomesOf, List.filter_append]

theorem outcomesOf_append_other (h : History) {q q' : QueueType} (hne : q ≠ q')
    (o : Option Nat) (dev : Device) (a : Bool) :
    History.outcomesOf ⟨dev, h.signalled ++ [(q', o)], a⟩ q = h.outcomesOf q := by
  have : ¬ q' = q := fun e => hne e.symm
  simp [History.outcomesOf, List.filter_append, this]

theorem outcomesOf_same_signalled (h : History) (q : QueueType) (dev : Device) (a : Bool) :
    History.outcomesOf ⟨dev, h.signalled, a⟩ q = h.outcomesOf q := rfl

theorem getLastD_le_of_forall_le {l : List Nat} {n : Nat} (h : ∀ t ∈ l, t ≤ n) :
    l.getLastD 0 ≤ n := by
  rw [List.getLastD_eq_getLast?]
  cases hl : l.getLast? with
  | none => simp
  | some x =>
    simp only [Option.getD_some]
    exact h x (List.mem_of_getLast?_eq_some hl)

theorem CountedAt_nil : CountedAt [] 0 := by
  refine ⟨rfl, ?_, ?_, ?_, ?_, ?_, ?_, ?_, ?_⟩ <;> simp

theorem CountedAt_success {outs : List (Option Nat)} {n : Nat} (h : CountedAt outs n) :
    CountedAt (outs ++ [some (n + 1)]) (n + 1) := by
  obtain ⟨h1, h2, h3, h4, h5, h6, h7, h8, h9⟩ := h
  have hfm : (outs ++ [some (n + 1)]).filterMap id = outs.filterMap id ++ [n + 1] := by
    simp [List.filterMap_append]
  refine ⟨by simp [h1], ?_, ?_, ?_, ?_, ?_, ?_, ?_, ?_⟩
  · intro i t hi
    rcases getElem?_concat_some hi with hold | ⟨hil, ht⟩
    · exact h2 i t hold
    · cases ht
      omega
  · rw [hfm, List.pairwise_append]
    refine ⟨h3, List.pairwise_singleton _ _, ?_⟩
    intro a ha b hb
    simp at hb
    have := h4 a ha
    omega
  · rw [hfm]
    intro t ht
    rcases List.mem_append.1 ht with h0 | h0
    · have := h4 t h0
      omega
    · simp at h0
      omega
  · rw [hfm]
    simp
    omega
  · rw [hfm]
    intro k t hk
    rcases getElem?_concat_some hk with hold | ⟨hkl, ht⟩
    · exact h6 k t hold
    · omega
  · intro hall
    rw [hfm, h7 (fun o ho => hall o (List.mem_append_left _ ho))]
    rw [List.length_append, List.length_singleton, List.range'_concat, ← h1]
    simp [Nat.add_comm]
  · intro _
    rw [hfm, List.getLastD_eq_getLast?, List.getLast?_concat]
    rfl
  · intro hl
    rw [List.getLast?_concat] at hl
    cases hl

theorem CountedAt_failure {outs : List (Option Nat)} {n : Nat} (h : CountedAt outs n) :
    CountedAt (outs ++ [none]) (n + 1) := by
  obtain ⟨h1, h2, h3, h4, h5, h6, h7, h8, h9⟩ := h
  have hfm : (outs ++ [none]).filterMap id = outs.filterMap id := by
    simp [List.filterMap_append]
  refine ⟨by simp [h1], ?_, ?_, ?_, ?_, ?_, ?_, ?_, ?_⟩
  · intro i t hi
    rcases getElem?_concat_some hi with hold | ⟨hil, ht⟩
    · exact h2 i t hold
    · cases ht
  · rw [hfm]; exact h3
  · rw [hfm]
    intro t ht
    have := h4 t ht
    omega
  · rw [hfm]; omega
  · rw [hfm]; exact h6
  · intro hall
    exact absurd rfl (hall none (by simp))
  · intro hl
    rw [List.getLast?_concat] at hl
    exact absurd rfl hl
  · intro _
    rw [hfm]
    have := getLastD_le_of_forall_le h4
    omega

theorem Counted_step (h : History) (op : Op) (hc : h.Counted) : (h.step op).Counted := by
  by_cases ha : h.alive = true
  swap
  · simpa [History.step, ha] using hc
  cases op with
  | SignalQueueWork queue hr =>
    simp only [History.step, ha, if_true]
    by_cases hok : FAILED hr
    · simp only [SignalQueueWork_failed _ _ hok]
      intro q
      by_cases hq : q = queue
      · subst hq
        rw [outcomesOf_append_same, fenceOf_setFence_same]
        exact CountedAt_failure (hc q)
      · rw [outcomesOf_append_other _ hq, fenceOf_setFence_other _ _ hq]
        exact hc q
    · simp only [SignalQueueWork_ok _ _ hok]
      intro q
      by_cases hq : q = queue
      · subst hq
        rw [outcomesOf_append_same, fenceOf_setFence_same]
        exact CountedAt_success (hc q)
      · rw [outcomesOf_append_other _ hq, fenceOf_setFence_other _ _ hq]
        exact hc q
  | WaitForQueue queue hr =>
    simp only [History.step, ha, if_true]
    have hl : ∀ q, ((h.device.WaitForQueue queue hr).device.fenceOf q).last_work_id
        = (h.device.fenceOf q).last_work_id := by
      intro q
      rw [WaitForQueue_eq_WaitForWork]
      exact WaitForWork_last_work_id _ _ _ _ q
    intro q
    split <;>
    · rw [outcomesOf_same_signalled]
      simp only [hl q]
      exact hc q
  | WaitForWork queue id hr =>
    simp only [History.step, ha, if_true]
    have hl := WaitForWork_last_work_id h.device queue id hr
    intro q
    split <;>
    · rw [outcomesOf_same_signalled]
      simp only [hl q]
      exact hc q
  | gpu queue k =>
    simp only [History.step, ha, if_true]
    intro q
    rw [outcomesOf_same_signalled]
    by_cases hq : q = queue
    · subst hq
      rw [fenceOf_setFence_same, gpuRetire_last_work_id]
      exact hc q
    · rw [fenceOf_setFence_other _ _ hq]
      exact hc q

theorem Counted_foldl (ops : List Op) :
    ∀ h : History, h.Counted → (ops.foldl History.step h).Counted := by
  induction ops with
  | nil => intro h hc; exact hc
  | cons op rest ih => intro h hc; exact ih _ (Counted_step h op hc)

theorem Counted_start : History.start.Counted := by
  intro q
  exact CountedAt_nil

theorem Counted_run (ops : List Op) : (History.run ops).Counted :=
  Counted_foldl ops _ Counted_start

/-! ## The counters stay small -/

theorem outcomesOf_length_le (h : History) (q : QueueType) :
    (h.outcomesOf q).length ≤ h.signalled.length := by
  simp only [History.outcomesOf, List.length_map]
  exact List.length_filter_le _ _

theorem step_signalled_length_le (h : History) (op : Op) :
    (h.step op).signalled.length ≤ h.signalled.length + 1 := by
  by_cases ha : h.alive = true
  swap
  · simp [History.step, ha]
  cases op with
  | SignalQueueWork queue hr =>
    simp only [History.step, ha, if_true]
    split <;> simp
  | WaitForQueue queue hr =>
    simp only [History.step, ha, if_true]
    split <;> simp
  | WaitForWork queue id hr =>
    simp only [History.step, ha, if_true]
    split <;> simp
  | gpu queue k =>
    simp [History.step, ha]

theorem foldl_signalled_length_le (ops : List Op) :
    ∀ h : History, (ops.foldl History.step h).signalled.length
      ≤ h.signalled.length + ops.length := by
  induction ops with
  | nil => intro h; simp
  | cons op rest ih =>
    intro h
    have h1 := ih (h.step op)
    have h2 := step_signalled_length_le h op
    simp only [List.foldl_cons, List.length_cons]
    omega

/-- No counter exceeds the number of steps the program has made. -/
theorem run_last_work_id_le (ops : List Op) (q : QueueType) :
    ((History.run ops).device.fenceOf q).last_work_id ≤ ops.length := by
  have h1 := (Counted_run ops q).1
  have h2 := outcomesOf_length_le (History.run ops) q
  have h3 := foldl_signalled_length_le ops History.start
  simp only [History.start, List.length_nil, Nat.zero_add] at h3
  rw [h1]
  exact Nat.le_trans h2 h3

/-! ## Well-formed fence slots -/

theorem WellFormed_gpuStep (f : FenceSlot) (h : f.WellFormed) :
    f.gpuStep.WellFormed ∧ f.gpuStep.last_work_id = f.last_work_id ∧
      f.completed ≤ f.gpuStep.completed := by
  obtain ⟨c, r, s⟩ := f
  obtain ⟨hle, hs⟩ := h
  simp only at hle hs
  rcases Nat.eq_zero_or_pos (r - c) with h0 | hpos
  · rw [h0] at hs
    simp only [List.range'_zero] at hs
    subst hs
    refine ⟨⟨hle, ?_⟩, rfl, Nat.le_refl _⟩
    simp [FenceSlot.gpuStep, h0]
  · obtain ⟨m, hm⟩ : ∃ m, r - c = m + 1 := ⟨r - c - 1, by omega⟩
    rw [hm, List.range'_succ] at hs
    subst hs
    refine ⟨⟨?_, ?_⟩, rfl, ?_⟩
    · simp only [FenceSlot.gpuStep]
      omega
    · simp only [FenceSlot.gpuStep]
      have : r - (c + 1) = m := by omega
      rw [this]
    · simp only [FenceSlot.gpuStep]
      omega

theorem WellFormed_gpuRetire (k : Nat) :
    ∀ f : FenceSlot, f.WellFormed →
      (f.gpuRetire k).WellFormed ∧ (f.gpuRetire k).last_work_id = f.last_work_id ∧
        f.completed ≤ (f.gpuRetire k).completed := by
  induction k with
  | zero => intro f h; exact ⟨h, rfl, Nat.le_refl _⟩
  | succ n ih =>
    intro f h
    obtain ⟨h1, h2, h3⟩ := WellFormed_gpuStep f h
    obtain ⟨h4, h5, h6⟩ := ih f.gpuStep h1
    exact ⟨h4, by rw [FenceSlot.gpuRetire, h5, h2], by rw [FenceSlot.gpuRetire]; omega⟩

theorem gpuRetire_zero (f : FenceSlot) : f.gpuRetire 0 = f := rfl

theorem WellFormed_signal (f : FenceSlot) (h : f.WellFormed) :
    FenceSlot.WellFormed
      ⟨f.completed, f.last_work_id + 1, f.signals ++ [f.last_work_id + 1]⟩ := by
  obtain ⟨hle, hs⟩ := h
  refine ⟨by simp only; omega, ?_⟩
  simp only
  have : f.last_work_id + 1 - f.completed = (f.last_work_id - f.completed) + 1 := by omega
  rw [this, List.range'_concat, ← hs]
  congr 2
  omega

theorem waitUntil_consecutive (n : Nat) :
    ∀ c : Nat, waitUntil (c + (n + 1)) c (List.range' (c + 1) (n + 1)) = some (c + (n + 1), []) := by
  induction n with
  | zero =>
    intro c
    simp [List.range'_succ, waitUntil]
  | succ m ih =>
    intro c
    rw [List.range'_succ]
    have hnot : ¬ (c + (m + 1 + 1) ≤ c) := by omega
    simp only [waitUntil, hnot, if_false]
    have := ih (c + 1)
    have e : c + 1 + (m + 1) = c + (m + 1 + 1) := by omega
    rw [e] at this
    exact this

/-- On a well-formed slot a wait for the last requested value whose event
registration succeeds returns, and leaves the queue drained. -/
theorem WaitForQueue_wellFormed_ok (d : Device) (queue : QueueType) {hr : HRESULT}
    (hwf : (d.fenceOf queue).WellFormed) (hok : ¬ FAILED hr) :
    (d.WaitForQueue queue hr).completion = Completion.returned () := by
  obtain ⟨hle, hs⟩ := hwf
  by_cases hb : (d.fenceOf queue).completed < (d.fenceOf queue).last_work_id
  · obtain ⟨m, hm⟩ : ∃ m, (d.fenceOf queue).last_work_id - (d.fenceOf queue).completed = m + 1 :=
      ⟨(d.fenceOf queue).last_work_id - (d.fenceOf queue).completed - 1, by omega⟩
    have hw := waitUntil_consecutive m (d.fenceOf queue).completed
    have e : (d.fenceOf queue).completed + (m + 1) = (d.fenceOf queue).last_work_id := by omega
    rw [e, ← hm, ← hs] at hw
    unfold Device.fenceOf at hb hw
    simp [Device.WaitForQueue, hb, ThrowIfFailed_of_ok hok, hw]
  · rw [WaitForQueue_not_behind d queue hr hb]

/-- On a well-formed slot a wait for the last requested value that returns
leaves the fence at that value and nothing enqueued. -/
theorem WaitForQueue_wellFormed_drains (d : Device) (queue : QueueType) (hr : HRESULT)
    (hwf : (d.fenceOf queue).WellFormed)
    (hret : (d.WaitForQueue queue hr).completion = Completion.returned ()) :
    (d.WaitForQueue queue hr).device.fenceOf queue
      = ⟨(d.fenceOf queue).last_work_id, (d.fenceOf queue).last_work_id, []⟩ := by
  obtain ⟨hle, hs⟩ := hwf
  by_cases hb : (d.fenceOf queue).completed < (d.fenceOf queue).last_work_id
  · by_cases hok : FAILED hr
    · unfold Device.fenceOf at hb
      simp [Device.WaitForQueue, hb, ThrowIfFailed_of_failed hok] at hret
    · obtain ⟨m, hm⟩ : ∃ m, (d.fenceOf queue).last_work_id - (d.fenceOf queue).completed = m + 1 :=
        ⟨(d.fenceOf queue).last_work_id - (d.fenceOf queue).completed - 1, by omega⟩
      have hw := waitUntil_consecutive m (d.fenceOf queue).completed
      have e : (d.fenceOf queue).completed + (m + 1) = (d.fenceOf queue).last_work_id := by omega
      rw [e, ← hm, ← hs] at hw
      unfold Device.fenceOf at hb hw
      simp [Device.WaitForQueue, hb, ThrowIfFailed_of_ok hok, hw, Device.fenceOf, Device.setFence]
  · rw [WaitForQueue_not_behind d queue hr hb]
    have he : (d.fenceOf queue).completed = (d.fenceOf queue).last_work_id := by omega
    have h0 : (d.fenceOf queue).last_work_id - (d.fenceOf queue).completed = 0 := by omega
    rw [h0] at hs
    simp only [List.range'_zero] at hs
    show d.fenceOf queue = _
    rw [← he]
    cases hf : d.fenceOf queue with
    | mk c r s =>
      rw [hf] at hs he
      simp only at hs he
      subst hs he
      rfl

/-! ## Sound fence slots -/

theorem Sound_gpuStep (f : FenceSlot) (h : f.Sound) :
    f.gpuStep.Sound ∧ f.gpuStep.last_work_id = f.last_work_id ∧
      f.completed ≤ f.gpuStep.completed := by
  obtain ⟨c, r, s⟩ := f
  obtain ⟨hle, hp, hs⟩ := h
  simp only at hle hp hs
  cases s with
  | nil => exact ⟨⟨hle, hp, hs⟩, rfl, Nat.le_refl _⟩
  | cons v rest =>
    have hv := hs v (List.mem_cons_self _ _)
    rw [List.pairwise_cons] at hp
    refine ⟨⟨hv.2, hp.2, ?_⟩, rfl, Nat.le_of_lt hv.1⟩
    intro x hx
    exact ⟨hp.1 x hx, (hs x (List.mem_cons_of_mem _ hx)).2⟩

theorem Sound_gpuRetire (k : Nat) :
    ∀ f : FenceSlot, f.Sound →
      (f.gpuRetire k).Sound ∧ (f.gpuRetire k).last_work_id = f.last_work_id ∧
        f.completed ≤ (f.gpuRetire k).completed := by
  induction k with
  | zero => intro f h; exact ⟨h, rfl, Nat.le_refl _⟩
  | succ n ih =>
    intro f h
    obtain ⟨h1, h2, h3⟩ := Sound_gpuStep f h
    obtain ⟨h4, h5, h6⟩ := ih f.gpuStep h1
    exact ⟨h4, by rw [FenceSlot.gpuRetire, h5, h2], by rw [FenceSlot.gpuRetire]; omega⟩

theorem Sound_signal (f : FenceSlot) (h : f.Sound) :
    FenceSlot.Sound
      ⟨f.completed, f.last_work_id + 1, f.signals ++ [f.last_work_id + 1]⟩ := by
  obtain ⟨hle, hp, hs⟩ := h
  refine ⟨by simp only; omega, ?_, ?_⟩
  · simp only
    rw [List.pairwise_append]
    refine ⟨hp, List.pairwise_singleton _ _, ?_⟩
    intro a ha b hb
    simp at hb
    have := (hs a ha).2
    omega
  · simp only
    intro x hx
    rcases List.mem_append.1 hx with h0 | h0
    · have := hs x h0
      omega
    · simp at h0
      omega

theorem Sound_signal_failed (f : FenceSlot) (h : f.Sound) :
    FenceSlot.Sound ⟨f.completed, f.last_work_id + 1, f.signals⟩ := by
  obtain ⟨hle, hp, hs⟩ := h
  refine ⟨by simp only; omega, hp, ?_⟩
  simp only
  intro x hx
  have := hs x hx
  omega

/-- A sound slot whose fence has reached the last requested value has nothing
enqueued. -/
theorem Sound_drained {c r : Nat} {s : List Nat} (h : FenceSlot.Sound ⟨c, r, s⟩) (hrc : r ≤ c) :
    c = r ∧ s = [] := by
  obtain ⟨hle, _, hs⟩ := h
  simp only at hle hs
  refine ⟨by omega, ?_⟩
  rw [List.eq_nil_iff_forall_not_mem]
  intro x hx
  have := hs x hx
  omega

theorem Pending_signal (f : FenceSlot) :
    FenceSlot.Pending
      ⟨f.completed, f.last_work_id + 1, f.signals ++ [f.last_work_id + 1]⟩ :=
  Or.inr (List.getLast?_concat _)

theorem Pending_gpuStep (f : FenceSlot) (hs : f.Sound) (hp : f.Pending) : f.gpuStep.Pending := by
  obtain ⟨c, r, s⟩ := f
  obtain ⟨hle, hpw, hm⟩ := hs
  simp only at hle hpw hm
  cases s with
  | nil => exact hp
  | cons v rest =>
    have hv := hm v (List.mem_cons_self _ _)
    rcases hp with h0 | h0
    · simp only at h0
      omega
    · simp only at h0
      cases rest with
      | nil =>
        left
        simp at h0
        exact h0
      | cons w tl =>
        right
        rw [List.getLast?_cons_cons] at h0
        exact h0

theorem Pending_gpuRetire (k : Nat) :
    ∀ f : FenceSlot, f.Sound → f.Pending → (f.gpuRetire k).Pending := by
  induction k with
  | zero => intro f _ h; exact h
  | succ n ih =>
    intro f hs hp
    exact ih f.gpuStep (Sound_gpuStep f hs).1 (Pending_gpuStep f hs hp)

theorem waitUntil_pending (v : Nat) :
    ∀ (sigs : List Nat) (c : Nat), (c = v ∨ sigs.getLast? = some v) →
      ∃ c2 rest, waitUntil v c sigs = some (c2, rest) := by
  intro sigs
  induction sigs with
  | nil =>
    intro c h
    rcases h with h | h
    · subst h
      exact ⟨c, [], by simp [waitUntil]⟩
    · simp at h
  | cons s tl ih =>
    intro c h
    by_cases hc : v ≤ c
    · exact ⟨c, s :: tl, by simp [waitUntil, hc]⟩
    · simp only [waitUntil, hc, if_false]
      apply ih
      rcases h with h | h
      · omega
      · cases tl with
        | nil =>
          left
          simp at h
          exact h
        | cons w tl2 =>
          right
          rw [List.getLast?_cons_cons] at h
          exact h

theorem waitUntil_sound (v : Nat) :
    ∀ (sigs : List Nat) (c r c2 : Nat) (rest : List Nat),
      FenceSlot.Sound ⟨c, r, sigs⟩ → waitUntil v c sigs = some (c2, rest) →
      FenceSlot.Sound ⟨c2, r, rest⟩ ∧ v ≤ c2 := by
  intro sigs
  induction sigs with
  | nil =>
    intro c r c2 rest hs h
    simp only [waitUntil] at h
    split at h
    · rename_i hv
      cases h
      exact ⟨hs, hv⟩
    · cases h
  | cons s tl ih =>
    intro c r c2 rest hs h
    simp only [waitUntil] at h
    split at h
    · rename_i hv
      cases h
      exact ⟨hs, hv⟩
    · exact ih s r c2 rest (Sound_gpuStep _ hs).1 h

/-- A wait for the last requested value whose event registration succeeds
returns when that value has been signalled. -/
theorem WaitForQueue_pending_ok (d : Device) (queue : QueueType) {hr : HRESULT}
    (hp : (d.fenceOf queue).Pending) (hok : ¬ FAILED hr) :
    (d.WaitForQueue queue hr).completion = Completion.returned () := by
  by_cases hb : (d.fenceOf queue).completed < (d.fenceOf queue).last_work_id
  · obtain ⟨c2, rest, hw⟩ := waitUntil_pending (d.fenceOf queue).last_work_id
      (d.fenceOf queue).signals (d.fenceOf queue).completed hp
    unfold Device.fenceOf at hb hw
    simp [Device.WaitForQueue, hb, ThrowIfFailed_of_ok hok, hw]
  · rw [WaitForQueue_not_behind d queue hr hb]

/-- On a sound slot a wait for the last requested value that returns leaves
the fence at that value and nothing enqueued. -/
theorem WaitForQueue_sound_drains (d : Device) (queue : QueueType) (hr : HRESULT)
    (hs : (d.fenceOf queue).Sound)
    (hret : (d.WaitForQueue queue hr).completion = Completion.returned ()) :
    (d.WaitForQueue queue hr).device.fenceOf queue
      = ⟨(d.fenceOf queue).last_work_id, (d.fenceOf queue).last_work_id, []⟩ := by
  by_cases hb : (d.fenceOf queue).completed < (d.fenceOf queue).last_work_id
  · by_cases hok : FAILED hr
    · unfold Device.fenceOf at hb
      simp [Device.WaitForQueue, hb, ThrowIfFailed_of_failed hok] at hret
    · cases hw : waitUntil (d.fenceOf queue).last_work_id (d.fenceOf queue).completed
          (d.fenceOf queue).signals with
      | none =>
        unfold Device.fenceOf at hb hw
        simp [Device.WaitForQueue, hb, ThrowIfFailed_of_ok hok, hw] at hret
      | some p =>
        obtain ⟨c2, rest⟩ := p
        obtain ⟨hs2, hv⟩ := waitUntil_sound _ _ _ _ _ _ hs hw
        obtain ⟨hc, hrest⟩ := Sound_drained hs2 hv
        subst hc hrest
        unfold Device.fenceOf at hb hw
        simp [Device.WaitForQueue, hb, ThrowIfFailed_of_ok hok, hw, Device.fenceOf,
          Device.setFence]
  · rw [WaitForQueue_not_behind d queue hr hb]
    show d.fenceOf queue = _
    cases hf : d.fenceOf queue with
    | mk c r s =>
      rw [hf] at hs hb
      simp only at hb
      obtain ⟨hc, hnil⟩ := Sound_drained hs (by omega)
      subst hc hnil
      rfl

/-! ## One iteration of the render loop -/

/-- The ways one iteration of a running loop can go, in terms of the graphics
fence slot. -/
theorem renderFrame_cases (t : LoopTrace) (env : FrameEnv) (hrun : t.running = true) :
    (renderFrame t env).begins = t.begins ++
        [⟨t.sCurrentResourceBufferIndex,
          ((t.dev.fenceOf QueueType.Graphics).gpuRetire env.gpuBefore).completed⟩] ∧
    ((FAILED env.hrSignal ∧ (renderFrame t env).tickets = t.tickets ∧
        (renderFrame t env).running = false) ∨
     (¬ FAILED env.hrSignal ∧
        (renderFrame t env).tickets = t.tickets ++
          [((t.dev.fenceOf QueueType.Graphics).gpuRetire env.gpuBefore).last_work_id + 1] ∧
        (renderFrame t env).sCurrentResourceBufferIndex = advance t.sCurrentResourceBufferIndex ∧
        ((slotIndex (advance t.sCurrentResourceBufferIndex) ≠ 0 ∧
            (renderFrame t env).running = true ∧
            (renderFrame t env).dev.fenceOf QueueType.Graphics =
              FenceSlot.gpuRetire env.gpuAfter
                ⟨((t.dev.fenceOf QueueType.Graphics).gpuRetire env.gpuBefore).completed,
                 ((t.dev.fenceOf QueueType.Graphics).gpuRetire env.gpuBefore).last_work_id + 1,
                 ((t.dev.fenceOf QueueType.Graphics).gpuRetire env.gpuBefore).signals ++
                   [((t.dev.fenceOf QueueType.Graphics).gpuRetire env.gpuBefore).last_work_id + 1]⟩) ∨
         (slotIndex (advance t.sCurrentResourceBufferIndex) = 0 ∧
            ∃ d2 : Device,
              d2.fenceOf QueueType.Graphics =
                FenceSlot.gpuRetire env.gpuAfter
                  ⟨((t.dev.fenceOf QueueType.Graphics).gpuRetire env.gpuBefore).completed,
                   ((t.dev.fenceOf QueueType.Graphics).gpuRetire env.gpuBefore).last_work_id + 1,
                   ((t.dev.fenceOf QueueType.Graphics).gpuRetire env.gpuBefore).signals ++
                     [((t.dev.fenceOf QueueType.Graphics).gpuRetire env.gpuBefore).last_work_id + 1]⟩ ∧
              (renderFrame t env).dev = (d2.WaitForQueue QueueType.Graphics env.hrSetEvent).device ∧
              ((renderFrame t env).running = true ↔
                (d2.WaitForQueue QueueType.Graphics env.hrSetEvent).completion
                  = Completion.returned ()))))) := by
  by_cases hs : FAILED env.hrSignal
  · simp [renderFrame, hrun, CommandGraph.Execute, SignalQueueWork_failed _ _ hs, hs,
      fenceOf_setFence_same]
  · simp only [renderFrame, hrun, if_true, CommandGraph.Execute, SignalQueueWork_ok _ _ hs,
      fenceOf_setFence_same]
    by_cases h0 : slotIndex (advance t.sCurrentResourceBufferIndex) = 0
    · simp only [h0, if_true]
      cases hw : (Device.WaitForQueue _ QueueType.Graphics env.hrSetEvent).completion with
      | returned u =>
        refine ⟨rfl, Or.inr ⟨hs, rfl, rfl, Or.inr ⟨trivial, _, ?_, rfl, ?_⟩⟩⟩
        · rw [fenceOf_setFence_same]
        · simp [hw]
      | threw e =>
        refine ⟨rfl, Or.inr ⟨hs, rfl, rfl, Or.inr ⟨trivial, _, ?_, rfl, ?_⟩⟩⟩
        · rw [fenceOf_setFence_same]
        · simp [hw]
      | hangs =>
        refine ⟨rfl, Or.inr ⟨hs, rfl, rfl, Or.inr ⟨trivial, _, ?_, rfl, ?_⟩⟩⟩
        · rw [fenceOf_setFence_same]
        · simp [hw]
    · simp [h0, hs, fenceOf_setFence_same]

/-! ## The invariant of the render loop -/

theorem advance_small {c : Int} (h0 : 0 ≤ c) (h1 : c + 1 < 2147483648) : advance c = c + 1 := by
  unfold advance
  exact wrapInt32_of_range (by omega) h1

theorem Inv_start (d : Device) (hwf : (d.fenceOf QueueType.Graphics).Sound) :
    (LoopTrace.start d).Inv (d.fenceOf QueueType.Graphics).last_work_id := by
  refine ⟨?_, ?_, ?_, ?_⟩
  · intro k b h
    simp [LoopTrace.start] at h
  · intro k v h
    simp [LoopTrace.start] at h
  · simp [LoopTrace.start]
  · intro _
    refine ⟨rfl, hwf, by simp [LoopTrace.start], ?_⟩
    intro _
    simp [LoopTrace.start]

theorem Inv_renderFrame (r0 : Nat) (t : LoopTrace) (env : FrameEnv) (h : t.Inv r0) :
    (renderFrame t env).Inv r0 := by
  by_cases hrun : t.running = true
  swap
  · have : renderFrame t env = t := by simp [renderFrame, hrun]
    rw [this]; exact h
  obtain ⟨hA, hB, hC, hD⟩ := h
  obtain ⟨hlen, hwf, hlast, hE⟩ := hD hrun
  obtain ⟨hbeg, hcase⟩ := renderFrame_cases t env hrun
  obtain ⟨hwf1, hl1, hc1⟩ := Sound_gpuRetire env.gpuBefore _ hwf
  -- the entry of the frame that starts now
  have hA' : ∀ (k : Nat) (b : FrameBegin), (renderFrame t env).begins[k]? = some b →
      k < 2147483648 → b.counter = (k : Int) ∧ (3 ≤ k → r0 + 3 * (k / 3) ≤ b.completed) := by
    intro k b hk hlt
    rw [hbeg] at hk
    rcases getElem?_concat_some hk with hold | ⟨hkl, hb⟩
    · exact hA k b hold hlt
    · subst hb
      have hn : t.tickets.length < 2147483648 := by omega
      obtain ⟨hcnt, hcomp⟩ := hE hn
      refine ⟨by simp only; rw [hcnt, hkl, hlen], fun h3 => ?_⟩
      have := hcomp (by omega)
      simp only
      rw [hkl, hlen]
      omega
  have hbl : (renderFrame t env).begins.length = t.begins.length + 1 := by
    rw [hbeg]; simp
  rcases hcase with ⟨_, htk, hfalse⟩ | ⟨_, htk, hcnt', hwait⟩
  · refine ⟨hA', ?_, ?_, ?_⟩
    · rw [htk]; exact hB
    · rw [htk, hbl]; omega
    · intro hr
      rw [hfalse] at hr
      cases hr
  · have hB' : ∀ (k v : Nat), (renderFrame t env).tickets[k]? = some v → v = r0 + k + 1 := by
      intro k v hk
      rw [htk] at hk
      rcases getElem?_concat_some hk with hold | ⟨hkl, hv⟩
      · exact hB k v hold
      · rw [hv, hkl, hl1, hlast]
    have htl : (renderFrame t env).tickets.length = t.tickets.length + 1 := by
      rw [htk]; simp
    have hwf2 := Sound_signal _ hwf1
    obtain ⟨hwf3, hl3, hc3⟩ := Sound_gpuRetire env.gpuAfter _ hwf2
    simp only at hl3 hc3
    refine ⟨hA', hB', by rw [htl, hbl]; omega, ?_⟩
    intro hrun'
    have hcounter : t.tickets.length + 1 < 2147483648 →
        (renderFrame t env).sCurrentResourceBufferIndex = ((t.tickets.length + 1 : Nat) : Int) := by
      intro hn
      obtain ⟨hcnt, _⟩ := hE (by omega)
      rw [hcnt', hcnt, advance_small (by omega) (by omega)]
      push_cast
      rfl
    rcases hwait with ⟨hne, _, hslot⟩ | ⟨_, d2, hd2, hdev, hiff⟩
    · refine ⟨by rw [htl, hbl, hlen], by rw [hslot]; exact hwf3, ?_, ?_⟩
      · rw [hslot, hl3, hl1, hlast, htl]
        omega
      · rw [htl]
        intro hn
        refine ⟨hcounter hn, fun h3 => ?_⟩
        obtain ⟨hcnt, hcomp⟩ := hE (by omega)
        have hmod : (t.tickets.length + 1) % 3 ≠ 0 := by
          intro hm
          apply hne
          rw [hcnt, advance_small (by omega) (by omega), slotIndex_nonneg (by omega)]
          omega
        have := hcomp (by omega)
        rw [hslot]
        omega
    · have hret := hiff.1 hrun'
      have hwfd2 : (d2.fenceOf QueueType.Graphics).Sound := by rw [hd2]; exact hwf3
      have hdr := WaitForQueue_sound_drains d2 QueueType.Graphics env.hrSetEvent hwfd2 hret
      rw [← hdev, hd2, hl3, hl1, hlast] at hdr
      refine ⟨by rw [htl, hbl, hlen], ?_, ?_, ?_⟩
      · rw [hdr]
        exact ⟨Nat.le_refl _, List.Pairwise.nil, by simp⟩
      · rw [hdr, htl]
        simp only
        omega
      · rw [htl]
        intro hn
        refine ⟨hcounter hn, fun _ => ?_⟩
        rw [hdr]
        simp only
        omega

theorem Inv_foldl (r0 : Nat) (envs : List FrameEnv) :
    ∀ t : LoopTrace, t.Inv r0 → (envs.foldl renderFrame t).Inv r0 := by
  induction envs with
  | nil => intro t h; exact h
  | cons e rest ih => intro t h; exact ih _ (Inv_renderFrame r0 t e h)

theorem Inv_renderLoop (d : Device) (hwf : (d.fenceOf QueueType.Graphics).Sound)
    (envs : List FrameEnv) :
    (renderLoop d envs).Inv (d.fenceOf QueueType.Graphics).last_work_id :=
  Inv_foldl _ envs _ (Inv_start d hwf)

/-- With every API call succeeding a running loop keeps running, and the
iteration starts one more frame. -/
theorem renderFrame_keeps_running (r0 : Nat) (t : LoopTrace) (env : FrameEnv) (h : t.Inv r0)
    (hrun : t.running = true) (hs : ¬ FAILED env.hrSignal) (he : ¬ FAILED env.hrSetEvent) :
    (renderFrame t env).running = true ∧
      (renderFrame t env).begins.length = t.begins.length + 1 := by
  obtain ⟨_, _, _, hD⟩ := h
  obtain ⟨_, hwf, _, _⟩ := hD hrun
  obtain ⟨hbeg, hcase⟩ := renderFrame_cases t env hrun
  obtain ⟨hwf1, _, _⟩ := Sound_gpuRetire env.gpuBefore _ hwf
  have hwf2 := Sound_signal _ hwf1
  have hp3 := Pending_gpuRetire env.gpuAfter _ hwf2 (Pending_signal _)
  refine ⟨?_, by rw [hbeg]; simp⟩
  rcases hcase with ⟨hf, _, _⟩ | ⟨_, _, _, hwait⟩
  · exact absurd hf hs
  · rcases hwait with ⟨_, hr, _⟩ | ⟨_, d2, hd2, _, hiff⟩
    · exact hr
    · apply hiff.2
      apply WaitForQueue_pending_ok _ _ _ he
      rw [hd2]; exact hp3

theorem foldl_keeps_running (r0 : Nat) (envs : List FrameEnv) :
    ∀ t : LoopTrace, t.Inv r0 → t.running = true →
      (∀ e ∈ envs, ¬ FAILED e.hrSignal ∧ ¬ FAILED e.hrSetEvent) →
      (envs.foldl renderFrame t).running = true ∧
        (envs.foldl renderFrame t).begins.length = t.begins.length + envs.length := by
  induction envs with
  | nil => intro t _ hrun _; exact ⟨hrun, rfl⟩
  | cons e rest ih =>
    intro t h hrun hall
    obtain ⟨hr1, hl1⟩ := renderFrame_keeps_running r0 t e h hrun
      (hall e (List.mem_cons_self _ _)).1 (hall e (List.mem_cons_self _ _)).2
    obtain ⟨hr2, hl2⟩ := ih _ (Inv_renderFrame r0 t e h) hr1
      (fun x hx => hall x (List.mem_cons_of_mem _ hx))
    refine ⟨hr2, ?_⟩
    rw [List.foldl_cons, hl2, hl1, List.length_cons]
    omega

/-! ## The render loop with a GPU that only works while waited for -/

theorem not_FAILED_S_OK : ¬ FAILED S_OK := by decide

/-- One iteration in the lazy environment, on a running loop with a well-formed
graphics slot. -/
theorem renderFrame_lazy (t : LoopTrace) (hrun : t.running = true)
    (hwf : (t.dev.fenceOf QueueType.Graphics).WellFormed) :
    (renderFrame t FrameEnv.lazy).begins = t.begins ++
        [⟨t.sCurrentResourceBufferIndex, (t.dev.fenceOf QueueType.Graphics).completed⟩] ∧
    (renderFrame t FrameEnv.lazy).tickets = t.tickets ++
        [(t.dev.fenceOf QueueType.Graphics).last_work_id + 1] ∧
    (renderFrame t FrameEnv.lazy).sCurrentResourceBufferIndex
        = advance t.sCurrentResourceBufferIndex ∧
    (renderFrame t FrameEnv.lazy).running = true ∧
    (renderFrame t FrameEnv.lazy).dev.fenceOf QueueType.Graphics =
      (if slotIndex (advance t.sCurrentResourceBufferIndex) = 0 then
        ⟨(t.dev.fenceOf QueueType.Graphics).last_work_id + 1,
          (t.dev.fenceOf QueueType.Graphics).last_work_id + 1, []⟩
      else
        ⟨(t.dev.fenceOf QueueType.Graphics).completed,
          (t.dev.fenceOf QueueType.Graphics).last_work_id + 1,
          (t.dev.fenceOf QueueType.Graphics).signals ++
            [(t.dev.fenceOf QueueType.Graphics).last_work_id + 1]⟩) := by
  obtain ⟨hbeg, hcase⟩ := renderFrame_cases t FrameEnv.lazy hrun
  have hwf2 := WellFormed_signal _ hwf
  have e1 : FrameEnv.lazy.gpuBefore = 0 := rfl
  have e2 : FrameEnv.lazy.gpuAfter = 0 := rfl
  have e3 : FrameEnv.lazy.hrSignal = S_OK := rfl
  have e4 : FrameEnv.lazy.hrSetEvent = S_OK := rfl
  simp only [e1, e2, e3, e4, gpuRetire_zero] at hbeg hcase
  rcases hcase with ⟨hf, _, _⟩ | ⟨_, htk, hcnt, hwait⟩
  · exact absurd hf not_FAILED_S_OK
  · rcases hwait with ⟨hne, hr, hslot⟩ | ⟨h0, d2, hd2, hdev, hiff⟩
    · refine ⟨hbeg, htk, hcnt, hr, ?_⟩
      rw [hslot, if_neg hne]
    · have hwfd2 : (d2.fenceOf QueueType.Graphics).WellFormed := by rw [hd2]; exact hwf2
      have hret := WaitForQueue_wellFormed_ok d2 QueueType.Graphics hwfd2 not_FAILED_S_OK
      have hdr := WaitForQueue_wellFormed_drains d2 QueueType.Graphics S_OK hwfd2 hret
      refine ⟨hbeg, htk, hcnt, hiff.2 hret, ?_⟩
      rw [if_pos h0, hdev, hdr, hd2]

/-- The loop after `n` lazy iterations, entered on an idle graphics queue that
has handed out no ticket, before the counter wraps. -/
theorem renderLoop_lazy (d : Device) (hd : d.fenceOf QueueType.Graphics = ⟨0, 0, []⟩)
    (n : Nat) (hn : n < 2147483648) :
    (renderLoop d (List.replicate n FrameEnv.lazy)).running = true ∧
    (renderLoop d (List.replicate n FrameEnv.lazy)).sCurrentResourceBufferIndex = (n : Int) ∧
    (renderLoop d (List.replicate n FrameEnv.lazy)).dev.fenceOf QueueType.Graphics
      = ⟨3 * (n / 3), n, List.range' (3 * (n / 3) + 1) (n % 3)⟩ ∧
    (renderLoop d (List.replicate n FrameEnv.lazy)).begins.length = n ∧
    (renderLoop d (List.replicate n FrameEnv.lazy)).tickets.length = n := by
  induction n with
  | zero =>
    simp [renderLoop, LoopTrace.start, hd]
  | succ m ih =>
    obtain ⟨hrun, hcnt, hslot, hbl, htl⟩ := ih (by omega)
    have hwf : ((renderLoop d (List.replicate m FrameEnv.lazy)).dev.fenceOf
        QueueType.Graphics).WellFormed := by
      rw [hslot]
      refine ⟨by simp only; omega, ?_⟩
      simp only
      congr 1
      omega
    have hstep : renderLoop d (List.replicate (m + 1) FrameEnv.lazy)
        = renderFrame (renderLoop d (List.replicate m FrameEnv.lazy)) FrameEnv.lazy := by
      simp [renderLoop, List.replicate_succ', List.foldl_append]
    obtain ⟨h1, h2, h3, h4, h5⟩ := renderFrame_lazy _ hrun hwf
    rw [hstep]
    have hadv : advance (m : Int) = ((m + 1 : Nat) : Int) := by
      rw [advance_small (by omega) (by omega)]
      push_cast
      rfl
    refine ⟨h4, by rw [h3, hcnt, hadv], ?_, by rw [h1]; simp [hbl], by rw [h2]; simp [htl]⟩
    rw [h5, hcnt, hadv, slotIndex_nonneg (by omega), hslot]
    simp only
    by_cases hm : (m + 1) % 3 = 0
    · have e : (((m + 1 : Nat) : Int) % 3 = 0) := by omega
      have e3 : 3 * ((m + 1) / 3) = m + 1 := by omega
      rw [if_pos e, hm, List.range'_zero, e3]
    · have e : ¬ (((m + 1 : Nat) : Int) % 3 = 0) := by omega
      rw [if_neg e]
      have e1 : (m + 1) / 3 = m / 3 := by omega
      have e2 : (m + 1) % 3 = m % 3 + 1 := by omega
      have e3 : 3 * (m / 3) + 1 + 1 * (m % 3) = m + 1 := by omega
      rw [e1, e2, List.range'_concat, e3]

theorem getElem?_concat_at {α : Type} {l : List α} {a : α} {k : Nat} (h : l.length = k) :
    (l ++ [a])[k]? = some a := by
  subst h
  simp

theorem renderLoop_append (d : Device) (l l' : List FrameEnv) :
    renderLoop d (l ++ l') = l'.foldl renderFrame (renderLoop d l) := by
  simp only [renderLoop, List.foldl_append]

/-- The four lazy iterations around the wrap of the counter, from a running
loop that has done `2^31 - 2` frames and has just drained the graphics queue:
frame `2^31 - 2` gets ticket `2^31 - 1`, and frame `2^31 + 1` starts with the
counter at `-2^31 + 1` and the fence still at `2^31 - 2`. -/
theorem four_frames_across_wrap (T0 : LoopTrace) (hrun0 : T0.running = true)
    (hcnt0 : T0.sCurrentResourceBufferIndex = 2147483646)
    (hslot0 : T0.dev.fenceOf QueueType.Graphics = ⟨2147483646, 2147483646, []⟩)
    (hbl0 : T0.begins.length = 2147483646) (htl0 : T0.tickets.length = 2147483646) :
    (List.foldl renderFrame T0
        [FrameEnv.lazy, FrameEnv.lazy, FrameEnv.lazy, FrameEnv.lazy]).begins[2147483649]?
        = some ⟨-2147483647, 2147483646⟩ ∧
    (List.foldl renderFrame T0
        [FrameEnv.lazy, FrameEnv.lazy, FrameEnv.lazy, FrameEnv.lazy]).tickets[2147483646]?
        = some 2147483647 := by
  simp only [List.foldl_cons, List.foldl_nil]
  -- frame 2^31 - 2
  obtain ⟨hb1, ht1, hc1, hr1, hs1⟩ := renderFrame_lazy T0 hrun0 (by rw [hslot0]; decide)
  simp only [hslot0, hcnt0] at hb1 ht1 hc1 hs1
  rw [if_neg (by decide)] at hs1
  -- frame 2^31 - 1
  obtain ⟨hb2, ht2, hc2, hr2, hs2⟩ := renderFrame_lazy _ hr1 (by rw [hs1]; decide)
  simp only [hs1, hc1] at hb2 ht2 hc2 hs2
  rw [if_neg (by decide)] at hs2
  -- frame 2^31
  obtain ⟨hb3, ht3, hc3, hr3, hs3⟩ := renderFrame_lazy _ hr2 (by rw [hs2]; decide)
  simp only [hs2, hc2] at hb3 ht3 hc3 hs3
  rw [if_neg (by decide)] at hs3
  -- frame 2^31 + 1
  obtain ⟨hb4, ht4, hc4, hr4, hs4⟩ := renderFrame_lazy _ hr3 (by rw [hs3]; decide)
  simp only [hs3, hc3] at hb4 ht4
  constructor
  · rw [hb4]
    have hl : (renderFrame (renderFrame (renderFrame T0 FrameEnv.lazy) FrameEnv.lazy)
        FrameEnv.lazy).begins.length = 2147483649 := by
      rw [hb3, hb2, hb1]
      simp only [List.length_append, List.length_singleton, hbl0]
    rw [getElem?_concat_at hl]
    have : advance (advance (advance (2147483646 : Int))) = -2147483647 := by decide
    rw [this]
  · rw [ht4, ht3, ht2, ht1]
    rw [List.getElem?_append_left (by simp [htl0]),
      List.getElem?_append_left (by simp [htl0]),
      List.getElem?_append_left (by simp [htl0])]
    exact getElem?_concat_at htl0

/-! ## Every program keeps the fence slots sound -/

theorem WaitForWork_sound (d : Device) (queue : QueueType) (id : Nat) (hr : HRESULT)
    (q : QueueType) (hq : (d.fenceOf q).Sound)
    (hqueue : (d.fenceOf queue).Sound) :
    ((d.WaitForWork queue id hr).device.fenceOf q).Sound := by
  unfold Device.WaitForWork
  simp only
  split
  · split
    · exact hq
    · split
      · exact hq
      · rename_i c rest hw
        by_cases hqq : q = queue
        · subst hqq
          rw [fenceOf_setFence_same]
          exact (waitUntil_sound id _ _ _ _ _ hqueue hw).1
        · rw [fenceOf_setFence_other _ _ hqq]
          exact hq
  · exact hq

theorem sound_step (h : History) (op : Op)
    (hwf : ∀ q, (h.device.fenceOf q).Sound) :
    ∀ q, ((h.step op).device.fenceOf q).Sound := by
  intro q
  by_cases ha : h.alive = true
  swap
  · simpa [History.step, ha] using hwf q
  cases op with
  | SignalQueueWork queue hr =>
    simp only [History.step, ha, if_true]
    by_cases hok : FAILED hr
    · simp only [SignalQueueWork_failed _ _ hok]
      by_cases hq : q = queue
      · subst hq
        rw [fenceOf_setFence_same]
        exact Sound_signal_failed _ (hwf q)
      · rw [fenceOf_setFence_other _ _ hq]
        exact hwf q
    · simp only [SignalQueueWork_ok _ _ hok]
      by_cases hq : q = queue
      · subst hq
        rw [fenceOf_setFence_same]
        exact Sound_signal _ (hwf q)
      · rw [fenceOf_setFence_other _ _ hq]
        exact hwf q
  | WaitForQueue queue hr =>
    simp only [History.step, ha, if_true]
    have := WaitForWork_sound h.device queue (h.device.fenceOf queue).last_work_id hr q
      (hwf q) (hwf queue)
    rw [← WaitForQueue_eq_WaitForWork] at this
    split <;> exact this
  | WaitForWork queue id hr =>
    simp only [History.step, ha, if_true]
    have := WaitForWork_sound h.device queue id hr q (hwf q) (hwf queue)
    split <;> exact this
  | gpu queue k =>
    simp only [History.step, ha, if_true]
    by_cases hq : q = queue
    · subst hq
      rw [fenceOf_setFence_same]
      exact (Sound_gpuRetire k _ (hwf q)).1
    · rw [fenceOf_setFence_other _ _ hq]
      exact hwf q

theorem sound_foldl (ops : List Op) :
    ∀ h : History, (∀ q, (h.device.fenceOf q).Sound) →
      ∀ q, ((ops.foldl History.step h).device.fenceOf q).Sound := by
  induction ops with
  | nil => intro h hwf; exact hwf
  | cons op rest ih =>
    intro h hwf
    exact ih (h.step op) (sound_step h op hwf)

/-- After any program every fence slot is sound. -/
theorem sound_run (ops : List Op) (q : QueueType) :
    ((History.run ops).device.fenceOf q).Sound := by
  apply sound_foldl ops History.start
  intro q2
  simp [History.start, Device.initial, Device.fenceOf, FenceSlot.Sound]

/-! ## The vertex map -/

theorem mapFind_mapAssign_same {V : Type} [DecidableEq V] (m : List (V × Nat)) (v : V) (x : Nat) :
    mapFind (mapAssign m v x) v = some x := by
  induction m with
  | nil => simp [mapAssign, mapFind]
  | cons p rest ih =>
    obtain ⟨k, y⟩ := p
    by_cases h : k = v
    · simp [mapAssign, mapFind, h]
    · simp [mapAssign, mapFind, h, ih]

theorem mapFind_mapAssign_other {V : Type} [DecidableEq V] (m : List (V × Nat)) {v w : V}
    (x : Nat) (h : v ≠ w) : mapFind (mapAssign m v x) w = mapFind m w := by
  induction m with
  | nil => simp [mapAssign, mapFind, h]
  | cons p rest ih =>
    obtain ⟨k, y⟩ := p
    by_cases hk : k = v
    · subst hk
      simp [mapAssign, mapFind, h]
    · by_cases hw : k = w
      · subst hw
        simp [mapAssign, mapFind, hk]
      · simp [mapAssign, mapFind, hk, hw, ih]

theorem mapAssign_absent {V : Type} [DecidableEq V] (m : List (V × Nat)) (v : V) (x : Nat)
    (h : mapFind m v = none) : mapAssign m v x = m ++ [(v, x)] := by
  induction m with
  | nil => rfl
  | cons p rest ih =>
    obtain ⟨k, y⟩ := p
    by_cases hk : k = v
    · simp [mapFind, hk] at h
    · simp only [mapFind, hk, if_false] at h
      simp [mapAssign, hk, ih h]

theorem mapFind_append {V : Type} [DecidableEq V] (m m' : List (V × Nat)) (v : V) :
    mapFind (m ++ m') v = (mapFind m v).or (mapFind m' v) := by
  induction m with
  | nil => simp [mapFind]
  | cons p rest ih =>
    obtain ⟨k, y⟩ := p
    by_cases hk : k = v
    · simp [mapFind, hk]
    · simp [mapFind, hk, ih]

/-! ## The de-duplication loop -/

theorem buildLoop_eq_foldl {V I : Type} [DecidableEq V] (expand : I → V) (shapes : List (List I)) :
    ∀ st : BuildState V,
      Mesh.buildLoop expand shapes st = (cornerVertices expand shapes).foldl Mesh.addCorner st := by
  induction shapes with
  | nil => intro st; rfl
  | cons shape rest ih =>
    intro st
    have := ih (shape.foldl (fun s' index => Mesh.addCorner s' (expand index)) st)
    simp only [Mesh.buildLoop, cornerVertices, List.foldl_cons, List.flatten_cons,
      List.map_append, List.foldl_append, List.foldl_map] at this ⊢
    exact this

/-- One face corner keeps the invariant, provided the vertex vector stays
within the range of the index type. -/
theorem Inv_addCorner {V : Type} [DecidableEq V] (st : BuildState V) (vs : List V) (v : V)
    (h : st.Inv vs) (hfit : v ∉ st.mVertices → st.mVertices.length < 4294967296) :
    (Mesh.addCorner st v).Inv (vs ++ [v]) := by
  obtain ⟨hnd, hmap, hmem, hsub, hlen, hidx⟩ := h
  cases hf : mapFind st.unique_vertices v with
  | none =>
    have hnot : v ∉ st.mVertices := by
      intro hv
      have := hmem v hv
      rw [hf] at this
      cases this
    have hcast : castUInt32 st.mVertices.length = st.mVertices.length :=
      Nat.mod_eq_of_lt (hfit hnot)
    have hadd : Mesh.addCorner st v =
        ⟨mapAssign st.unique_vertices v st.mVertices.length, st.mVertices ++ [v],
          st.mIndices ++ [st.mVertices.length]⟩ := by
      simp [Mesh.addCorner, mapCount, hf, mapSubscript, mapFind_mapAssign_same, hcast]
    rw [hadd]
    refine ⟨?_, ?_, ?_, ?_, ?_, ?_⟩
    · exact List.Nodup.append hnd (List.nodup_singleton v) (by simpa using hnot)
    · intro w i hw
      by_cases hvw : v = w
      · subst hvw
        rw [mapFind_mapAssign_same] at hw
        cases hw
        exact getElem?_concat_at rfl
      · rw [mapFind_mapAssign_other _ _ hvw] at hw
        have := hmap w i hw
        have hi : i < st.mVertices.length := (List.getElem?_eq_some.1 this).1
        simp only
        rw [List.getElem?_append_left hi]
        exact this
    · intro w hw
      by_cases hvw : v = w
      · subst hvw
        simp [mapFind_mapAssign_same]
      · simp only
        rw [mapFind_mapAssign_other _ _ hvw]
        rcases List.mem_append.1 hw with h1 | h1
        · exact hmem w h1
        · simp at h1
          exact absurd h1.symm hvw
    · intro w hw
      rcases List.mem_append.1 hw with h1 | h1
      · exact List.mem_append_left _ (hsub w h1)
      · exact List.mem_append_right _ h1
    · simp [hlen]
    · intro k w hk
      rcases getElem?_concat_some hk with hold | ⟨hkl, hwv⟩
      · obtain ⟨i, hi1, hi2⟩ := hidx k w hold
        have hk' : k < st.mIndices.length := (List.getElem?_eq_some.1 hi1).1
        have hi' : i < st.mVertices.length := (List.getElem?_eq_some.1 hi2).1
        refine ⟨i, ?_, ?_⟩
        · simp only
          rw [List.getElem?_append_left hk']
          exact hi1
        · simp only
          rw [List.getElem?_append_left hi']
          exact hi2
      · subst hwv
        refine ⟨st.mVertices.length, ?_, ?_⟩
        · exact getElem?_concat_at (by rw [hkl, hlen])
        · exact getElem?_concat_at rfl
  | some i =>
    have hadd : Mesh.addCorner st v =
        ⟨st.unique_vertices, st.mVertices, st.mIndices ++ [i]⟩ := by
      simp [Mesh.addCorner, mapCount, hf, mapSubscript]
    rw [hadd]
    refine ⟨hnd, hmap, hmem, ?_, by simp [hlen], ?_⟩
    · intro w hw
      exact List.mem_append_left _ (hsub w hw)
    · intro k w hk
      rcases getElem?_concat_some hk with hold | ⟨hkl, hwv⟩
      · obtain ⟨j, hj1, hj2⟩ := hidx k w hold
        have hk' : k < st.mIndices.length := (List.getElem?_eq_some.1 hj1).1
        refine ⟨j, ?_, hj2⟩
        simp only
        rw [List.getElem?_append_left hk']
        exact hj1
      · subst hwv
        exact ⟨i, getElem?_concat_at (by rw [hkl, hlen]), hmap w i hf⟩

/-- A list without repetition whose elements all occur in `vs` is no longer
than the number of distinct elements of `vs`. -/
theorem length_le_card_of_nodup {V : Type} [DecidableEq V] {l vs : List V} (hnd : l.Nodup)
    (hsub : ∀ v ∈ l, v ∈ vs) : l.length ≤ vs.toFinset.card := by
  rw [← List.toFinset_card_of_nodup hnd]
  apply Finset.card_le_card
  intro x hx
  rw [List.mem_toFinset] at hx ⊢
  exact hsub x hx

theorem Inv_foldl_addCorner {V : Type} [DecidableEq V] (all : List V)
    (hbound : all.toFinset.card ≤ 4294967296) (rest : List V) :
    ∀ (st : BuildState V) (vs : List V), st.Inv vs → vs ++ rest = all →
      (rest.foldl Mesh.addCorner st).Inv all := by
  induction rest with
  | nil =>
    intro st vs h hall
    rw [List.append_nil] at hall
    subst hall
    exact h
  | cons v tl ih =>
    intro st vs h hall
    apply ih (Mesh.addCorner st v) (vs ++ [v])
    · apply Inv_addCorner st vs v h
      intro hnot
      have hnd : (st.mVertices ++ [v]).Nodup :=
        List.Nodup.append h.1 (List.nodup_singleton v) (by simpa using hnot)
      have hsub : ∀ w ∈ st.mVertices ++ [v], w ∈ all := by
        intro w hw
        rw [← hall]
        rcases List.mem_append.1 hw with h1 | h1
        · exact List.mem_append_left _ (h.2.2.2.1 w h1)
        · simp at h1
          subst h1
          simp
      have := length_le_card_of_nodup hnd hsub
      simp at this
      omega
    · rw [← hall]
      simp

/-! ## The loop on pairwise distinct corners -/

theorem mapFind_identity_range (n v : Nat) :
    mapFind ((List.range n).map (fun i => (i, i))) v = if v < n then some v else none := by
  induction n with
  | zero => simp [mapFind]
  | succ m ih =>
    rw [List.range_succ, List.map_append, mapFind_append, ih]
    by_cases h1 : v < m
    · have h2 : v < m + 1 := by omega
      simp [h1, h2]
    · by_cases h3 : m = v
      · subst h3
        simp [mapFind]
      · have h2 : ¬ v < m + 1 := by omega
        simp [h1, h2, mapFind, h3]

/-- The step of the loop on the corner `n` after the corners `0 .. n - 1`: the
stored index is `n` cast to 32 bits. -/
theorem addCorner_fresh (n : Nat) :
    Mesh.addCorner
        (⟨(List.range n).map (fun i => (i, i)), List.range n, List.range n⟩ : BuildState Nat) n
      = ⟨(List.range n).map (fun i => (i, i)) ++ [(n, castUInt32 n)], List.range n ++ [n],
          List.range n ++ [castUInt32 n]⟩ := by
  have hf : mapFind ((List.range n).map (fun i => (i, i))) n = none := by
    rw [mapFind_identity_range]
    simp
  have hl : (List.range n).length = n := List.length_range n
  simp only [Mesh.addCorner, mapCount, hf, mapSubscript, hl]
  simp only [Option.isSome_none, Bool.false_eq_true, if_false, if_true]
  rw [mapAssign_absent _ _ _ hf, mapFind_append, hf]
  simp [mapFind]

theorem foldl_addCorner_range (n : Nat) (hn : n ≤ 4294967296) :
    (List.range n).foldl Mesh.addCorner (⟨[], [], []⟩ : BuildState Nat)
      = ⟨(List.range n).map (fun i => (i, i)), List.range n, List.range n⟩ := by
  induction n with
  | zero => rfl
  | succ m ih =>
    have hc : castUInt32 m = m := Nat.mod_eq_of_lt (by omega)
    rw [List.range_succ, List.foldl_append, ih (by omega)]
    simp only [List.foldl_cons, List.foldl_nil]
    rw [addCorner_fresh, hc]
    simp

/-- The loop on the corners `0 .. n`, when `n` is the first value the 32-bit
cast sends to 0: corner `n` gets index 0, which is the place of vertex 0. -/
theorem foldl_addCorner_range_overflow (n : Nat) (hn : n ≤ 4294967296) (h0 : castUInt32 n = 0) :
    ((List.range (n + 1)).foldl Mesh.addCorner (⟨[], [], []⟩ : BuildState Nat)).mIndices
        = List.range n ++ [0] ∧
    ((List.range (n + 1)).foldl Mesh.addCorner (⟨[], [], []⟩ : BuildState Nat)).mVertices
        = List.range n ++ [n] := by
  rw [List.range_succ, List.foldl_append, foldl_addCorner_range n hn]
  simp only [List.foldl_cons, List.foldl_nil]
  rw [addCorner_fresh, h0]
  exact ⟨rfl, rfl⟩

theorem BuildFromOBJ_single_shape (n : Nat) :
    Mesh.BuildFromOBJ (Mesh.empty Nat) true (fun i : Nat => i) [List.range n]
      = ⟨((List.range n).foldl Mesh.addCorner (⟨[], [], []⟩ : BuildState Nat)).mVertices,
         ((List.range n).foldl Mesh.addCorner (⟨[], [], []⟩ : BuildState Nat)).mIndices⟩ := by
  simp only [Mesh.BuildFromOBJ, if_true, Mesh.buildLoop, Mesh.empty, List.foldl_cons,
    List.foldl_nil]

theorem cornerVertices_single_shape (n : Nat) :
    cornerVertices (fun i : Nat => i) [List.range n] = List.range n := by
  simp [cornerVertices]

/-- The whole function on the corners `0 .. n` when the 32-bit cast sends `n`
to 0: corner `n` is vertex `n`, its index is 0, and `mVertices[0]` is vertex 0. -/
theorem BuildFromOBJ_overflow (n : Nat) (hn : n ≤ 4294967296) (h0 : castUInt32 n = 0)
    (hpos : 0 < n) :
    (cornerVertices (fun i : Nat => i) [List.range (n + 1)])[n]? = some n ∧
    (Mesh.BuildFromOBJ (Mesh.empty Nat) true (fun i : Nat => i)
      [List.range (n + 1)]).mIndices[n]? = some 0 ∧
    (Mesh.BuildFromOBJ (Mesh.empty Nat) true (fun i : Nat => i)
      [List.range (n + 1)]).mVertices[0]? = some 0 := by
  obtain ⟨hi, hv⟩ := foldl_addCorner_range_overflow n hn h0
  refine ⟨?_, ?_, ?_⟩
  · rw [cornerVertices_single_shape]
    exact List.getElem?_range (by omega)
  · rw [BuildFromOBJ_single_shape]
    simp only
    rw [hi]
    exact getElem?_concat_at (List.length_range _)
  · rw [BuildFromOBJ_single_shape]
    simp only
    rw [hv, List.getElem?_append_left (by rw [List.length_range]; exact hpos)]
    exact List.getElem?_range hpos


/-! ## The command graph (modelled from the specification) -/

theorem AddNode_ok {g g1 : CommandGraph} {n : Node} (h : g.AddNode n = Except.ok g1) :
    g1.nodes = g.nodes ++ [n] ∧ g1.finalized = g.finalized ∧
      (n.name = "" ∨ ∀ a ∈ g.nodes, a.name ≠ n.name) := by
  unfold CommandGraph.AddNode at h
  split at h
  · cases h
  · split at h
    · cases h
    · rename_i hfin hdup
      cases h
      refine ⟨rfl, rfl, ?_⟩
      by_cases hn : n.name = ""
      · exact Or.inl hn
      · right
        intro a ha he
        apply hdup
        exact ⟨hn, by rw [← he]; exact List.mem_map_of_mem _ ha⟩

theorem addAll_ok (ns : List Node) :
    ∀ (g0 g : CommandGraph), CommandGraph.addAll g0 ns = Except.ok g →
      g.nodes = g0.nodes ++ ns ∧ g.finalized = g0.finalized ∧
        (UniqueNames g0.nodes → UniqueNames g.nodes) := by
  induction ns with
  | nil =>
    intro g0 g h
    simp only [CommandGraph.addAll] at h
    cases h
    exact ⟨by simp, rfl, fun hu => hu⟩
  | cons n rest ih =>
    intro g0 g h
    simp only [CommandGraph.addAll] at h
    cases h1 : g0.AddNode n with
    | error e => rw [h1] at h; cases h
    | ok g1 =>
      rw [h1] at h
      obtain ⟨hn, hf, hname⟩ := AddNode_ok h1
      obtain ⟨hn2, hf2, hu2⟩ := ih g1 g h
      refine ⟨by rw [hn2, hn]; simp, by rw [hf2, hf], fun hu => hu2 ?_⟩
      rw [hn]
      unfold UniqueNames at hu ⊢
      rw [List.pairwise_append]
      refine ⟨hu, List.pairwise_singleton _ _, ?_⟩
      intro a ha b hb
      simp at hb
      subst hb
      rcases hname with h0 | hne
      · exact Or.inl h0
      · exact Or.inr (hne a ha)

theorem NamesEarlier_index (ns : List Node) :
    ∀ pre : List Node, NamesEarlier pre ns →
      ∀ (j : Nat) (b : Node), ns[j]? = some b → ∀ d ∈ b.depends_on,
        d ≠ "" ∧ ∃ p : Node, (p ∈ pre ∨ ∃ i, i < j ∧ ns[i]? = some p) ∧ p.name = d := by
  induction ns with
  | nil =>
    intro pre _ j b hb
    simp at hb
  | cons n rest ih =>
    intro pre h j b hb d hd
    obtain ⟨hfirst, hrest⟩ := h
    cases j with
    | zero =>
      simp at hb
      subst hb
      obtain ⟨h1, p, hp, hpn⟩ := hfirst d hd
      exact ⟨h1, p, Or.inl hp, hpn⟩
    | succ j' =>
      simp at hb
      obtain ⟨h1, p, hp, hpn⟩ := ih (pre ++ [n]) hrest j' b hb d hd
      refine ⟨h1, p, ?_, hpn⟩
      rcases hp with hp | ⟨i, hi, hpi⟩
      · rcases List.mem_append.1 hp with hp | hp
        · exact Or.inl hp
        · simp at hp
          subst hp
          exact Or.inr ⟨0, by omega, by simp⟩
      · exact Or.inr ⟨i + 1, by omega, by simpa using hpi⟩

theorem ready_of_named {placed : List Node} {n : Node}
    (h : ∀ d ∈ n.depends_on, d ≠ "" ∧ ∃ p ∈ placed, p.name = d) : ready placed n = true := by
  simp only [ready, List.all_eq_true, List.any_eq_true, decide_eq_true_eq]
  intro d hd
  exact (h d hd).2

/-- When every node names only earlier ones, the ordering is the registration
order. -/
theorem topoSort_registration_order (pending : List Node) :
    ∀ (placed : List Node) (fuel : Nat), NamesEarlier placed pending → pending.length ≤ fuel →
      topoSort fuel pending placed = some (placed ++ pending) := by
  induction pending with
  | nil =>
    intro placed fuel _ _
    cases fuel <;> simp [topoSort]
  | cons n rest ih =>
    intro placed fuel h hf
    obtain ⟨hfirst, hrest⟩ := h
    cases fuel with
    | zero => simp at hf
    | succ f =>
      simp only [topoSort, pickReady, ready_of_named hfirst, if_true]
      rw [ih (placed ++ [n]) f hrest (by simpa using hf)]
      simp

theorem validation_of_NamesEarlier (nodes : List Node) (h : NamesEarlier [] nodes) :
    nodes.all (fun n => n.depends_on.all (fun d => resolved nodes d)) = true := by
  simp only [List.all_eq_true, resolved, Bool.and_eq_true, decide_eq_true_eq, List.any_eq_true]
  intro n hn d hd
  obtain ⟨j, hj⟩ := List.mem_iff_getElem?.1 hn
  obtain ⟨h1, p, hp, hpn⟩ := NamesEarlier_index nodes [] h j n hj d hd
  refine ⟨h1, p, ?_, hpn⟩
  rcases hp with hp | ⟨i, _, hpi⟩
  · simp at hp
  · exact List.getElem?_mem hpi

theorem UniqueNames_index {nodes : List Node} (hu : UniqueNames nodes) {i i' : Nat} {a p : Node}
    (ha : nodes[i]? = some a) (hp : nodes[i']? = some p) (hname : a.name = p.name)
    (hne : a.name ≠ "") : i = i' := by
  obtain ⟨hi, hai⟩ := List.getElem?_eq_some.1 ha
  obtain ⟨hi', hpi⟩ := List.getElem?_eq_some.1 hp
  unfold UniqueNames at hu
  rw [List.pairwise_iff_getElem] at hu
  by_contra hcon
  rcases Nat.lt_or_gt_of_ne hcon with hlt | hgt
  · have := hu i i' hi hi' hlt
    rw [hai, hpi] at this
    rcases this with h0 | h1
    · exact hne (hname.trans h0)
    · exact h1 hname
  · have := hu i' i hi' hi hgt
    rw [hai, hpi] at this
    rcases this with h0 | h1
    · exact hne h0
    · exact h1 hname.symm


/-! ## The buffered resource and the frame counter -/

/-- C1 (as amended): for every factory `f` and every number `N < 2^31` of
advances of the frame counter from 0, a buffered resource built from `f`
dereferences, through `operator*` and through `operator->`, to `f (N mod 3)`. -/
theorem C1_deref_after_advances {α : Type} [Inhabited α] (f : Nat → α) (N : Nat)
    (hN : N < 2147483648) :
    (BufferedResource.ofFactory f).deref (advanceN N 0) = some (f (N % 3)) ∧
      (BufferedResource.ofFactory f).arrow (advanceN N 0) = some (f (N % 3)) := by
  have hc : advanceN N 0 = (N : Int) := advanceN_zero_small hN
  have hs : slotIndex (advanceN N 0) = ((N % 3 : Nat) : Int) := by
    rw [hc, slotIndex_nonneg (by omega)]
    omega
  have hlt : N % 3 < 3 := Nat.mod_lt _ (by norm_num)
  unfold BufferedResource.deref BufferedResource.arrow
  rw [hs]
  exact ⟨slot_ofFactory f _ hlt, slot_ofFactory f _ hlt⟩

/-- C1, witness: the factory `f i = i` after 7 advances dereferences to `7 mod 3 = 1`. -/
theorem C1_deref_after_advances_witness :
    (7 : Nat) < 2147483648 ∧
      (BufferedResource.ofFactory (fun i : Nat => i)).deref (advanceN 7 0) = some 1 :=
  ⟨by decide, (C1_deref_after_advances (fun i : Nat => i) 7 (by decide)).1⟩

/-- C1 as stated fails: after `2^31` advances the counter has wrapped to
`-2^31`, the slot index is `-2`, and the resource built from `f i = i` does
not dereference to `2^31 mod 3`. -/
theorem C1_fails_after_wraparound :
    ¬ ((BufferedResource.ofFactory (fun i : Nat => i)).deref (advanceN 2147483648 0)
        = some (2147483648 % 3)) := by
  rw [advanceN_zero_eq]
  decide

/-- C9, the code at the failing input: after `2^31` advances from 0 the counter
is `-2^31`, the index `counter % kResourceBufferCount` is `-2`, outside
`{0, 1, 2}`, and both dereference operators subscript `mResource` outside its
three slots. -/
theorem C9_index_out_of_range_after_wraparound :
    advanceN 2147483648 0 = -2147483648 ∧
      slotIndex (advanceN 2147483648 0) = -2 ∧
      (BufferedResource.ofFactory (fun i : Nat => i)).deref (advanceN 2147483648 0) = none ∧
      (BufferedResource.ofFactory (fun i : Nat => i)).arrow (advanceN 2147483648 0) = none := by
  rw [advanceN_zero_eq]
  decide

/-! ## Device creation: statement of the specification -/

/-- C8, what the code does instead: whenever creation at feature level 12.1
fails, the constructor fails with that result code, logs nothing, and never
asks for feature level 12.0, whatever that second creation would have given. -/
theorem C8_failed_creation_leaves_constructor
    (D3D12CreateDevice : D3D_FEATURE_LEVEL → CreateDeviceResult)
    (hfail : FAILED (D3D12CreateDevice D3D_FEATURE_LEVEL.D3D_FEATURE_LEVEL_12_1).hr) :
    (Device.createD3DDevice D3D12CreateDevice).thrown
        = some (D3D12CreateDevice D3D_FEATURE_LEVEL.D3D_FEATURE_LEVEL_12_1).hr ∧
      (Device.createD3DDevice D3D12CreateDevice).log = [] ∧
      (Device.createD3DDevice D3D12CreateDevice).calls
        = [D3D_FEATURE_LEVEL.D3D_FEATURE_LEVEL_12_1] := by
  simp [Device.createD3DDevice, ThrowIfFailed_of_failed hfail]

/-- C8, the failing input: on an adapter where level 12.1 fails with `E_FAIL`
and level 12.0 would succeed, the constructor throws `E_FAIL` without logging
and without a second creation. -/
theorem C8_failed_creation_leaves_constructor_witness :
    FAILED (adapterOnly120 D3D_FEATURE_LEVEL.D3D_FEATURE_LEVEL_12_1).hr ∧
      ¬ FAILED (adapterOnly120 D3D_FEATURE_LEVEL.D3D_FEATURE_LEVEL_12_0).hr ∧
      (Device.createD3DDevice adapterOnly120).thrown = some E_FAIL ∧
      (Device.createD3DDevice adapterOnly120).log = [] ∧
      (Device.createD3DDevice adapterOnly120).calls
        = [D3D_FEATURE_LEVEL.D3D_FEATURE_LEVEL_12_1] :=
  ⟨by decide, by decide,
    C8_failed_creation_leaves_constructor adapterOnly120 (by decide)⟩


/-! ## The fence tracker: statements of the specification -/

/-- C2 (as amended): for every fence state of a queue (completed value `c`,
last requested value `r`) and every result of the event registration,
`WaitForQueue` blocks if and only if `c < r` and the registration succeeds;
when `c < r` and the registration fails it throws that result code instead;
whenever `c < r` the one value it registers, and so the value it waits for
when it blocks, is exactly `r`.  Consequently, once a `WaitForQueue` has
returned, in any later state of that queue with the same last requested value
(no `SignalQueueWork` since) and a fence that has not gone back,
`WaitForQueue` returns at once: it only reads the fence, does not wait, and
leaves the device as it was. -/
theorem C2_WaitForQueue_blocks_iff_behind (d : Device) (queue : QueueType) (hr : HRESULT) :
    ((d.WaitForQueue queue hr).blocks queue ↔
        ((d.fenceOf queue).completed < (d.fenceOf queue).last_work_id ∧ ¬ FAILED hr)) ∧
    ((d.fenceOf queue).completed < (d.fenceOf queue).last_work_id → FAILED hr →
        (d.WaitForQueue queue hr).completion = Completion.threw hr) ∧
    ((d.fenceOf queue).completed < (d.fenceOf queue).last_work_id →
        ∀ v, (d.WaitForQueue queue hr).waitsOn queue v ↔ v = (d.fenceOf queue).last_work_id) ∧
    (∀ (d2 : Device) (hr2 : HRESULT),
        (d.WaitForQueue queue hr).completion = Completion.returned () →
        (d2.fenceOf queue).last_work_id = (d.fenceOf queue).last_work_id →
        ((d.WaitForQueue queue hr).device.fenceOf queue).completed ≤ (d2.fenceOf queue).completed →
        d2.WaitForQueue queue hr2
          = ⟨d2, [ApiCall.GetCompletedValue queue], Completion.returned ()⟩) := by
  rw [WaitForQueue_eq_WaitForWork]
  refine ⟨?_, ?_, ?_, ?_⟩
  · by_cases h : (d.fenceOf queue).completed < (d.fenceOf queue).last_work_id
    · by_cases hok : FAILED hr
      · simp [Run.blocks, WaitForWork_behind_failed d queue _ hr h hok, h, hok]
      · simp [Run.blocks, WaitForWork_behind_calls d queue _ hr h hok, h, hok]
    · simp [Run.blocks, WaitForWork_not_behind d queue _ hr h, h]
  · intro h hf
    rw [WaitForWork_behind_failed d queue _ hr h hf]
  · intro h v
    by_cases hok : FAILED hr
    · simp only [Run.waitsOn, WaitForWork_behind_failed d queue _ hr h hok]
      simp
    · simp only [Run.waitsOn, WaitForWork_behind_calls d queue _ hr h hok]
      simp
  · intro d2 hr2 hret hsame hmono
    have hreach := WaitForWork_returned_reaches d queue _ hr hret
    apply WaitForQueue_not_behind
    omega

/-- C2, witness: on a queue whose fence stands at 2 with tickets 3, 4, 5 in
flight, `WaitForQueue` blocks, waits on 5 and returns with the fence at 5; a
second `WaitForQueue` on the device it leaves does not wait. -/
theorem C2_WaitForQueue_blocks_iff_behind_witness :
    ¬ FAILED S_OK ∧
      (busyDevice.WaitForQueue QueueType.Graphics S_OK).blocks QueueType.Graphics ∧
      (busyDevice.WaitForQueue QueueType.Graphics S_OK).waitsOn QueueType.Graphics 5 ∧
      (busyDevice.WaitForQueue QueueType.Graphics S_OK).completion = Completion.returned () ∧
      ((busyDevice.WaitForQueue QueueType.Graphics S_OK).device.WaitForQueue
          QueueType.Graphics S_OK).calls = [ApiCall.GetCompletedValue QueueType.Graphics] :=
  ⟨by decide,
    (C2_WaitForQueue_blocks_iff_behind busyDevice QueueType.Graphics S_OK).1.2
      ⟨by decide, by decide⟩,
    by decide, by decide,
    congrArg Run.calls
      ((C2_WaitForQueue_blocks_iff_behind busyDevice QueueType.Graphics S_OK).2.2.2
        (busyDevice.WaitForQueue QueueType.Graphics S_OK).device S_OK
        (by decide) (by decide) (Nat.le_refl _))⟩

/-- C2 as stated fails when the event registration fails: with the fence at 2
behind the last requested value 5 and `SetEventOnCompletion` returning
`E_FAIL`, `WaitForQueue` throws `E_FAIL` and does not block. -/
theorem C2_fails_when_registration_fails :
    ¬ ((busyDevice.WaitForQueue QueueType.Graphics E_FAIL).blocks QueueType.Graphics ↔
        (busyDevice.fenceOf QueueType.Graphics).completed
          < (busyDevice.fenceOf QueueType.Graphics).last_work_id) := by
  decide

/-- C3 (as amended): for every queue and every result of `Signal`, on a device
whose counter is below `2^64 - 1`, `SignalQueueWork` increases the last
requested value of its queue by exactly one and issues one `Signal` for the
new value, leaving the other queues alone; a successful call enqueues the GPU
signal for the new value and returns it, a failed call enqueues nothing and
throws.  From the freshly constructed device (every counter 0), in every
program of fewer than `2^64` steps, also one that catches the exceptions and
goes on, a successful call returns the number of `SignalQueueWork` calls made
on its queue so far, failed ones included: the `k`-th successful call returns
at least `k`, exactly `k` when no call on the queue has failed, and the
tickets of one queue are strictly increasing.  No counter exceeds the number
of steps the program has made, and the counter a call leaves fits in 64
bits. -/
theorem C3_SignalQueueWork_counts_calls (d : Device) (queue : QueueType) (hr : HRESULT)
    (hfit : (d.fenceOf queue).last_work_id + 1 < 18446744073709551616) :
    ((d.SignalQueueWork queue hr).device.fenceOf queue).last_work_id
        = (d.fenceOf queue).last_work_id + 1 ∧
    (d.SignalQueueWork queue hr).calls
        = [ApiCall.Signal queue ((d.fenceOf queue).last_work_id + 1)] ∧
    (¬ FAILED hr →
      ((d.SignalQueueWork queue hr).device.fenceOf queue).signals
          = (d.fenceOf queue).signals ++ [(d.fenceOf queue).last_work_id + 1] ∧
      (d.SignalQueueWork queue hr).completion
          = Completion.returned ((d.fenceOf queue).last_work_id + 1)) ∧
    (FAILED hr →
      ((d.SignalQueueWork queue hr).device.fenceOf queue).signals = (d.fenceOf queue).signals ∧
      (d.SignalQueueWork queue hr).completion = Completion.threw hr) ∧
    (∀ q, q ≠ queue → (d.SignalQueueWork queue hr).device.fenceOf q = d.fenceOf q) ∧
    (∀ q, (Device.initial.fenceOf q).last_work_id = 0) ∧
    (∀ (ops : List Op), ops.length < 18446744073709551616 → ∀ (q : QueueType) (i t : Nat),
        ((History.run ops).outcomesOf q)[i]? = some (some t) → t = i + 1) ∧
    (∀ (ops : List Op), ops.length < 18446744073709551616 → ∀ (q : QueueType) (k t : Nat),
        ((History.run ops).ticketsOf q)[k]? = some t → k + 1 ≤ t) ∧
    (∀ (ops : List Op), ops.length < 18446744073709551616 → ∀ (q : QueueType),
        (∀ o ∈ (History.run ops).outcomesOf q, o ≠ none) →
        ∀ (k t : Nat), ((History.run ops).ticketsOf q)[k]? = some t → t = k + 1) ∧
    (∀ (ops : List Op), ops.length < 18446744073709551616 → ∀ (q : QueueType),
        List.Pairwise (fun a b => a < b) ((History.run ops).ticketsOf q)) ∧
    (∀ (ops : List Op) (q : QueueType),
        ((History.run ops).device.fenceOf q).last_work_id ≤ ops.length) ∧
    ((d.SignalQueueWork queue hr).device.fenceOf queue).last_work_id
        < 18446744073709551616 := by
  refine ⟨?_, ?_, ?_, ?_, ?_, fun _ => rfl, ?_, ?_, ?_, ?_, run_last_work_id_le, ?_⟩
  · by_cases h : FAILED hr
    · rw [SignalQueueWork_failed d queue h, fenceOf_setFence_same]
    · rw [SignalQueueWork_ok d queue h, fenceOf_setFence_same]
  · by_cases h : FAILED hr
    · rw [SignalQueueWork_failed d queue h]
    · rw [SignalQueueWork_ok d queue h]
  · intro h
    rw [SignalQueueWork_ok d queue h, fenceOf_setFence_same]
    exact ⟨rfl, rfl⟩
  · intro h
    rw [SignalQueueWork_failed d queue h, fenceOf_setFence_same]
    exact ⟨rfl, rfl⟩
  · intro q hq
    by_cases h : FAILED hr
    · rw [SignalQueueWork_failed d queue h]
      exact fenceOf_setFence_other _ _ hq
    · rw [SignalQueueWork_ok d queue h]
      exact fenceOf_setFence_other _ _ hq
  · intro ops _ q i t hi
    exact (Counted_run ops q).2.1 i t hi
  · intro ops _ q k t hk
    exact (Counted_run ops q).2.2.2.2.2.1 k t hk
  · intro ops _ q hall k t hk
    have h7 : (History.run ops).ticketsOf q
        = List.range' 1 ((History.run ops).outcomesOf q).length :=
      (Counted_run ops q).2.2.2.2.2.2.1 hall
    rw [h7] at hk
    have hlt : k < ((History.run ops).outcomesOf q).length := by
      have := (List.getElem?_eq_some.1 hk).1
      simpa using this
    rw [List.getElem?_range' _ _ hlt] at hk
    simp at hk
    omega
  · intro ops _ q
    exact (Counted_run ops q).2.2.1
  · by_cases h : FAILED hr
    · rw [SignalQueueWork_failed d queue h, fenceOf_setFence_same]
      exact hfit
    · rw [SignalQueueWork_ok d queue h, fenceOf_setFence_same]
      exact hfit

/-- C3, witness: on the freshly constructed device a successful signal on the
graphics queue returns 1; in a program whose second signal on the graphics
queue fails and is caught, the successful ones return 1 and 3. -/
theorem C3_SignalQueueWork_counts_calls_witness :
    (Device.initial.fenceOf QueueType.Graphics).last_work_id + 1 < 18446744073709551616 ∧
      (Device.initial.SignalQueueWork QueueType.Graphics S_OK).completion
        = Completion.returned 1 ∧
      (History.run [Op.SignalQueueWork QueueType.Graphics S_OK,
          Op.SignalQueueWork QueueType.Copy S_OK,
          Op.SignalQueueWork QueueType.Graphics E_FAIL,
          Op.WaitForWork QueueType.Graphics 1 S_OK,
          Op.SignalQueueWork QueueType.Graphics S_OK]).ticketsOf QueueType.Graphics
        = [1, 3] :=
  ⟨by decide,
    ((C3_SignalQueueWork_counts_calls Device.initial QueueType.Graphics S_OK
      (by decide)).2.2.1 (by decide)).2,
    by decide⟩

/-- C3 as stated fails after a failed call: on the freshly constructed device
a `SignalQueueWork` on the compute queue whose `Signal` returns `E_FAIL`
throws, with the counter already at 1; the next call succeeds and returns 2.
The first successful call on the queue does not return 1. -/
theorem C3_fails_after_failed_call :
    (Device.initial.SignalQueueWork QueueType.Compute E_FAIL).completion
        = Completion.threw E_FAIL ∧
    ((Device.initial.SignalQueueWork QueueType.Compute E_FAIL).device.SignalQueueWork
        QueueType.Compute S_OK).completion = Completion.returned 2 ∧
    (History.run [Op.SignalQueueWork QueueType.Compute E_FAIL,
        Op.SignalQueueWork QueueType.Compute S_OK]).ticketsOf QueueType.Compute = [2] ∧
    ¬ (∀ (k t : Nat),
        ((History.run [Op.SignalQueueWork QueueType.Compute E_FAIL,
          Op.SignalQueueWork QueueType.Compute S_OK]).ticketsOf QueueType.Compute)[k]? = some t →
        t = k + 1) := by
  refine ⟨by decide, by decide, by decide, ?_⟩
  intro h
  have h2 := h 0 2 (by decide)
  omega

/-- C4 (as amended): for every queue, every ticket `id` and every result of
the event registration, `WaitForWork` blocks if and only if the fence of the
queue is below `id` and the registration succeeds; when the fence is below
`id` and the registration fails it throws that result code instead; whenever
the fence is below `id` the one value it registers, and so the value it waits
for when it blocks, is exactly `id`, whatever the last requested value is.
For `id` at or below the fence it returns at once, also while newer tickets
are in flight, and in no case does it change a last requested value. -/
theorem C4_WaitForWork_blocks_iff_behind (d : Device) (queue : QueueType) (id : Nat)
    (hr : HRESULT) :
    ((d.WaitForWork queue id hr).blocks queue ↔
        ((d.fenceOf queue).completed < id ∧ ¬ FAILED hr)) ∧
    ((d.fenceOf queue).completed < id → FAILED hr →
        (d.WaitForWork queue id hr).completion = Completion.threw hr) ∧
    ((d.fenceOf queue).completed < id →
        ∀ v, (d.WaitForWork queue id hr).waitsOn queue v ↔ v = id) ∧
    (id ≤ (d.fenceOf queue).completed →
        d.WaitForWork queue id hr
          = ⟨d, [ApiCall.GetCompletedValue queue], Completion.returned ()⟩) ∧
    (∀ q, ((d.WaitForWork queue id hr).device.fenceOf q).last_work_id
        = (d.fenceOf q).last_work_id) := by
  refine ⟨?_, ?_, ?_, ?_, WaitForWork_last_work_id d queue id hr⟩
  · by_cases h : (d.fenceOf queue).completed < id
    · by_cases hok : FAILED hr
      · simp [Run.blocks, WaitForWork_behind_failed d queue id hr h hok, h, hok]
      · simp [Run.blocks, WaitForWork_behind_calls d queue id hr h hok, h, hok]
    · simp [Run.blocks, WaitForWork_not_behind d queue id hr h, h]
  · intro h hf
    rw [WaitForWork_behind_failed d queue id hr h hf]
  · intro h v
    by_cases hok : FAILED hr
    · simp only [Run.waitsOn, WaitForWork_behind_failed d queue id hr h hok]
      simp
    · simp only [Run.waitsOn, WaitForWork_behind_calls d queue id hr h hok]
      simp
  · intro hle
    exact WaitForWork_not_behind d queue id hr (by omega)

/-- C4, witness: with the fence at 2 and tickets 3, 4, 5 in flight, waiting
for ticket 4 blocks on the value 4 (not on 5) and returns with ticket 5 still
enqueued, and waiting for ticket 2 returns at once. -/
theorem C4_WaitForWork_blocks_iff_behind_witness :
    ¬ FAILED S_OK ∧
      (busyDevice.WaitForWork QueueType.Graphics 4 S_OK).blocks QueueType.Graphics ∧
      (busyDevice.WaitForWork QueueType.Graphics 4 S_OK).waitsOn QueueType.Graphics 4 ∧
      ¬ (busyDevice.WaitForWork QueueType.Graphics 4 S_OK).waitsOn QueueType.Graphics 5 ∧
      ((busyDevice.WaitForWork QueueType.Graphics 4 S_OK).device.fenceOf QueueType.Graphics)
        = ⟨4, 5, [5]⟩ ∧
      (busyDevice.WaitForWork QueueType.Graphics 2 S_OK).calls
        = [ApiCall.GetCompletedValue QueueType.Graphics] :=
  ⟨by decide,
    (C4_WaitForWork_blocks_iff_behind busyDevice QueueType.Graphics 4 S_OK).1.2
      ⟨by decide, by decide⟩,
    by decide, by decide, by decide,
    congrArg Run.calls
      ((C4_WaitForWork_blocks_iff_behind busyDevice QueueType.Graphics 2 S_OK).2.2.2.1
        (by decide))⟩

/-- C4 as stated fails when the event registration fails: with the fence at 2
below ticket 4 and `SetEventOnCompletion` returning `E_FAIL`, `WaitForWork`
throws `E_FAIL` and does not block. -/
theorem C4_fails_when_registration_fails :
    ¬ ((busyDevice.WaitForWork QueueType.Graphics 4 E_FAIL).blocks QueueType.Graphics ↔
        (busyDevice.fenceOf QueueType.Graphics).completed < 4) := by
  decide

/-- C5 (as amended): in the render loop, entered after any setup program on
the fences that is still running (no wait of it blocked for ever), whatever the
GPU retires on its own and whatever the API calls of the loop return, for
every frame number `N` with `N + 3 < 2^31`: if frame `N + 3` starts recording,
then frame `N` got a ticket, frame `N + 3` selects the slot frame `N` selected,
and the graphics fence has reached the ticket of frame `N` at that moment.
With every API call succeeding the loop never stops: every iteration starts a
frame. -/
theorem C5_slot_reuse_after_retirement (setup : List Op) (envs : List FrameEnv) (N : Nat)
    (halive : (History.run setup).alive = true) (hN : N + 3 < 2147483648) :
    (∀ b : FrameBegin, (renderLoop (History.run setup).device envs).begins[N + 3]? = some b →
      ∃ (a : FrameBegin) (t : Nat),
        (renderLoop (History.run setup).device envs).begins[N]? = some a ∧
        (renderLoop (History.run setup).device envs).tickets[N]? = some t ∧
        slotIndex b.counter = slotIndex a.counter ∧
        t ≤ b.completed) ∧
    ((∀ e ∈ envs, ¬ FAILED e.hrSignal ∧ ¬ FAILED e.hrSetEvent) →
      (renderLoop (History.run setup).device envs).running = true ∧
      (renderLoop (History.run setup).device envs).begins.length = envs.length) := by
  have hwf := sound_run setup QueueType.Graphics
  generalize (History.run setup).device = d at hwf
  have hinv := Inv_renderLoop d hwf envs
  constructor
  · obtain ⟨hA, hB, hC, _⟩ := hinv
    intro b hb
    have hlen : N + 3 < (renderLoop d envs).begins.length := (List.getElem?_eq_some.1 hb).1
    have h1 : N < (renderLoop d envs).begins.length := by omega
    have h2 : N < (renderLoop d envs).tickets.length := by omega
    refine ⟨(renderLoop d envs).begins[N], (renderLoop d envs).tickets[N],
      List.getElem?_eq_getElem h1, List.getElem?_eq_getElem h2, ?_, ?_⟩
    · obtain ⟨hcb, _⟩ := hA (N + 3) b hb hN
      obtain ⟨hca, _⟩ := hA N _ (List.getElem?_eq_getElem h1) (by omega)
      rw [hcb, hca, slotIndex_nonneg (by omega), slotIndex_nonneg (by omega)]
      omega
    · obtain ⟨_, hcomp⟩ := hA (N + 3) b hb hN
      have ht := hB N _ (List.getElem?_eq_getElem h2)
      have := hcomp (by omega)
      omega
  · intro hall
    have h := foldl_keeps_running _ envs _ (Inv_start d hwf) rfl hall
    exact ⟨h.1, by simpa [renderLoop, LoopTrace.start] using h.2⟩

/-- C5, witness: after the setup of `main.cpp`, seven iterations with a GPU
that only works while waited for; frame 6 starts with the fence at 6, beyond
the ticket 4 of frame 3, and both frames select slot 0. -/
theorem C5_slot_reuse_after_retirement_witness :
    (History.run mainSetup).alive = true ∧ 3 + 3 < 2147483648 ∧
      (renderLoop (History.run mainSetup).device
        (List.replicate 7 FrameEnv.lazy)).begins[3 + 3]? = some ⟨6, 6⟩ ∧
      (renderLoop (History.run mainSetup).device
        (List.replicate 7 FrameEnv.lazy)).tickets[3]? = some 4 ∧
      ∃ (a : FrameBegin) (t : Nat),
        (renderLoop (History.run mainSetup).device
          (List.replicate 7 FrameEnv.lazy)).begins[3]? = some a ∧
        (renderLoop (History.run mainSetup).device
          (List.replicate 7 FrameEnv.lazy)).tickets[3]? = some t ∧
        slotIndex (6 : Int) = slotIndex a.counter ∧ t ≤ 6 :=
  ⟨by decide, by decide, by decide, by decide,
    (C5_slot_reuse_after_retirement mainSetup (List.replicate 7 FrameEnv.lazy) 3
      (by decide) (by decide)).1 ⟨6, 6⟩ (by decide)⟩

/-- C5 as stated fails for frame `N = 2^31 - 2`: after the setup of `main.cpp`,
with every API call succeeding and a GPU that only works while waited for,
frame `N + 3 = 2^31 + 1` starts recording while the graphics fence stands at
`2^31 - 2`, below the ticket `2^31 - 1` of frame `N`; no wait separates the two
frames because the counter wraps to `-2^31` in between and passes no multiple
of 3. -/
theorem C5_fails_across_wraparound :
    ∃ (b : FrameBegin) (t : Nat),
      (renderLoop (History.run mainSetup).device
        (List.replicate 2147483650 FrameEnv.lazy)).begins[2147483646 + 3]? = some b ∧
      (renderLoop (History.run mainSetup).device
        (List.replicate 2147483650 FrameEnv.lazy)).tickets[2147483646]? = some t ∧
      b.completed < t := by
  have hd : (History.run mainSetup).device.fenceOf QueueType.Graphics = ⟨0, 0, []⟩ := by
    decide
  generalize (History.run mainSetup).device = d at hd
  obtain ⟨hrun0, hcnt0, hslot0, hbl0, htl0⟩ := renderLoop_lazy d hd 2147483646 (by norm_num)
  have hslot0' : (renderLoop d
      (List.replicate 2147483646 FrameEnv.lazy)).dev.fenceOf QueueType.Graphics
        = ⟨2147483646, 2147483646, []⟩ := by
    rw [hslot0]; rfl
  have hsplit : List.replicate 2147483650 FrameEnv.lazy
      = List.replicate 2147483646 FrameEnv.lazy
        ++ [FrameEnv.lazy, FrameEnv.lazy, FrameEnv.lazy, FrameEnv.lazy] :=
    List.replicate_add 2147483646 4 FrameEnv.lazy
  have h := four_frames_across_wrap _ hrun0 hcnt0 hslot0' hbl0 htl0
  rw [← renderLoop_append, ← hsplit] at h
  exact ⟨⟨-2147483647, 2147483646⟩, 2147483647, h.1, h.2, by decide⟩

/-! ## Mesh construction: statement of the specification -/

/-- C10 (as amended): for every successfully loaded file whose face corners
expand to the vertex sequence `v_0 .. v_{n-1}` with at most `2^32` distinct
vertices, `BuildFromOBJ` on an empty mesh gives `n` indices, every index
`mIndices[k]` is below the length of `mVertices` and `mVertices[mIndices[k]]`
is `v_k`, and `mVertices` holds no vertex twice. -/
theorem C10_BuildFromOBJ_indexes_corners {V I : Type} [DecidableEq V] (expand : I → V)
    (shapes : List (List I))
    (hbound : (cornerVertices expand shapes).toFinset.card ≤ 4294967296) :
    (Mesh.BuildFromOBJ (Mesh.empty V) true expand shapes).mIndices.length
        = (cornerVertices expand shapes).length ∧
    (∀ (k : Nat) (v : V), (cornerVertices expand shapes)[k]? = some v →
      ∃ i, (Mesh.BuildFromOBJ (Mesh.empty V) true expand shapes).mIndices[k]? = some i ∧
        i < (Mesh.BuildFromOBJ (Mesh.empty V) true expand shapes).mVertices.length ∧
        (Mesh.BuildFromOBJ (Mesh.empty V) true expand shapes).mVertices[i]? = some v) ∧
    (Mesh.BuildFromOBJ (Mesh.empty V) true expand shapes).mVertices.Nodup := by
  have hstart : BuildState.Inv (⟨[], [], []⟩ : BuildState V) [] := by
    refine ⟨List.nodup_nil, ?_, ?_, ?_, rfl, ?_⟩
    · intro v i h
      simp [mapFind] at h
    · intro v h
      simp at h
    · intro v h
      simp at h
    · intro k v h
      simp at h
  have hinv := Inv_foldl_addCorner (cornerVertices expand shapes) hbound
    (cornerVertices expand shapes) _ [] hstart (List.nil_append _)
  rw [← buildLoop_eq_foldl] at hinv
  obtain ⟨hnd, _, _, _, hlen, hidx⟩ := hinv
  simp only [Mesh.BuildFromOBJ, if_true, Mesh.empty]
  refine ⟨hlen, ?_, hnd⟩
  intro k v hk
  obtain ⟨i, hi1, hi2⟩ := hidx k v hk
  exact ⟨i, hi1, (List.getElem?_eq_some.1 hi2).1, hi2⟩

/-- C10, witness: two shapes with the corners 1 2 3 and 2 3 4 1 give the
vertices 1 2 3 4 and the indices 0 1 2 1 2 3 0. -/
theorem C10_BuildFromOBJ_indexes_corners_witness :
    (cornerVertices (fun i : Nat => i) [[1, 2, 3], [2, 3, 4, 1]]).toFinset.card ≤ 4294967296 ∧
      (Mesh.BuildFromOBJ (Mesh.empty Nat) true (fun i : Nat => i)
        [[1, 2, 3], [2, 3, 4, 1]]).mVertices = [1, 2, 3, 4] ∧
      (Mesh.BuildFromOBJ (Mesh.empty Nat) true (fun i : Nat => i)
        [[1, 2, 3], [2, 3, 4, 1]]).mIndices = [0, 1, 2, 1, 2, 3, 0] ∧
      (Mesh.BuildFromOBJ (Mesh.empty Nat) true (fun i : Nat => i)
        [[1, 2, 3], [2, 3, 4, 1]]).mVertices.Nodup :=
  ⟨by decide, by decide, by decide,
    (C10_BuildFromOBJ_indexes_corners (fun i : Nat => i) [[1, 2, 3], [2, 3, 4, 1]]
      (by decide)).2.2⟩

/-- C10 as stated fails on a file with `2^32 + 1` pairwise distinct face
corners (the vertices `0 .. 2^32` in one shape): the last corner, vertex
`2^32`, gets index `2^32` cast to 32 bits, which is 0, and `mVertices[0]` is
vertex 0. -/
theorem C10_fails_beyond_32_bit_indices :
    ∃ (k i v w : Nat),
      (cornerVertices (fun i : Nat => i) [List.range (4294967296 + 1)])[k]? = some v ∧
      (Mesh.BuildFromOBJ (Mesh.empty Nat) true (fun i : Nat => i)
        [List.range (4294967296 + 1)]).mIndices[k]? = some i ∧
      (Mesh.BuildFromOBJ (Mesh.empty Nat) true (fun i : Nat => i)
        [List.range (4294967296 + 1)]).mVertices[i]? = some w ∧
      w ≠ v :=
  ⟨4294967296, 0, 4294967296, 0,
    (BuildFromOBJ_overflow 4294967296 (Nat.le_refl _) (by decide) (by decide)).1,
    (BuildFromOBJ_overflow 4294967296 (Nat.le_refl _) (by decide) (by decide)).2.1,
    (BuildFromOBJ_overflow 4294967296 (Nat.le_refl _) (by decide) (by decide)).2.2,
    by decide⟩

/-! ## The command graph: statement of the specification -/

/-- C6: for every list of nodes registered through `AddNode` in which each
node names only previously registered predecessors (an acyclic node set),
`Build` succeeds, marks the graph finalized and produces an execution order
that holds every node once (it is the registration order) and in which every
predecessor stands before each of its dependents.  The three nodes of the test
application come out as Clear, Draw, Present. -/
theorem C6_Build_orders_predecessors_first (nodes : List Node) (g : CommandGraph)
    (hreg : CommandGraph.addAll CommandGraph.empty nodes = Except.ok g)
    (hearlier : NamesEarlier [] nodes) :
    (∃ g' : CommandGraph, g.Build = Except.ok g' ∧ g'.finalized = true ∧
      g'.order = nodes ∧ List.Perm g'.order g.nodes ∧
      ∀ (i j : Nat) (a b : Node), g'.order[i]? = some a → g'.order[j]? = some b →
        a.name ∈ b.depends_on → i < j) ∧
    (∀ meshes : Nat, ∃ g1 g2 : CommandGraph,
      CommandGraph.addAll CommandGraph.empty (testAppNodes meshes) = Except.ok g1 ∧
      g1.Build = Except.ok g2 ∧ g2.order.map Node.name = ["Clear", "Draw", "Present"]) := by
  constructor
  · obtain ⟨hn, hf, hu⟩ := addAll_ok nodes _ g hreg
    have hnodes : g.nodes = nodes := by simpa [CommandGraph.empty] using hn
    have huniq : UniqueNames nodes := by
      rw [← hnodes]
      exact hu (by simp [UniqueNames, CommandGraph.empty])
    have hsort := topoSort_registration_order nodes [] nodes.length hearlier (Nat.le_refl _)
    have hval := validation_of_NamesEarlier nodes hearlier
    refine ⟨{ g with finalized := true, order := nodes }, ?_, rfl, rfl, ?_, ?_⟩
    · simp [CommandGraph.Build, hnodes, hval, hsort]
    · simp [hnodes]
    · intro i j a b ha hb hdep
      simp only at ha hb
      obtain ⟨hne, p, hp, hpn⟩ := NamesEarlier_index nodes [] hearlier j b hb a.name hdep
      rcases hp with hp | ⟨i', hi', hpi⟩
      · simp at hp
      · have := UniqueNames_index huniq ha hpi hpn.symm hne
        omega
  · intro meshes
    exact ⟨_, _, rfl, rfl, rfl⟩

/-- C6, witness: the diamond A, B after A, C after A, D after B and C is
registered and built; A comes first and D last. -/
theorem C6_Build_orders_predecessors_first_witness :
    ∃ g g' : CommandGraph,
      CommandGraph.addAll CommandGraph.empty
        [⟨"A", [], 1⟩, ⟨"B", ["A"], 1⟩, ⟨"C", ["A"], 1⟩, ⟨"D", ["B", "C"], 1⟩] = Except.ok g ∧
      NamesEarlier [] [⟨"A", [], 1⟩, ⟨"B", ["A"], 1⟩, ⟨"C", ["A"], 1⟩, ⟨"D", ["B", "C"], 1⟩] ∧
      g.Build = Except.ok g' ∧ g'.order.map Node.name = ["A", "B", "C", "D"] := by
  have hreg : CommandGraph.addAll CommandGraph.empty
      [⟨"A", [], 1⟩, ⟨"B", ["A"], 1⟩, ⟨"C", ["A"], 1⟩, ⟨"D", ["B", "C"], 1⟩]
      = Except.ok ⟨[⟨"A", [], 1⟩, ⟨"B", ["A"], 1⟩, ⟨"C", ["A"], 1⟩, ⟨"D", ["B", "C"], 1⟩],
          false, []⟩ := rfl
  have hne : NamesEarlier []
      [⟨"A", [], 1⟩, ⟨"B", ["A"], 1⟩, ⟨"C", ["A"], 1⟩, ⟨"D", ["B", "C"], 1⟩] := by
    simp [NamesEarlier]
  obtain ⟨g', hb, _, ho, _, _⟩ := (C6_Build_orders_predecessors_first _ _ hreg hne).1
  exact ⟨_, g', hreg, hne, hb, by rw [ho]; rfl⟩

end FrameDX12
